import Mathlib

/-!
Shallow embedding of the Bible-commentary scripture-reference engine:
`scripts/common_passages.py` (book registry, passage parsing) and
`scripts/common_db.py` (entry store, overlap scoring, ranked search).

Python strings are modelled as `List Char` / `String`, Python `int` as `Int`,
Python `None`-able ints as `Option Int`, floats (scores) as `ℚ` (the score
arithmetic uses only small exact constants and small integer ratios), and
raised exceptions as `Except` errors.  The two regular expressions used by
`parse_passage` are embedded as deterministic matchers that reproduce the
backtracking behaviour of Python `re` on those particular patterns
(lazy book group tried shortest-first, greedy digit runs, optional groups
that can only commit one way on these grammars).
-/

/-- Python `str.isspace` characters relevant to `\s` in `re` (ASCII). -/
def pyIsSpace (c : Char) : Bool :=
  c = ' ' ∨ c = '\t' ∨ c = '\n' ∨ c = '\r' ∨ c = '\x0b' ∨ c = '\x0c'

/-- ASCII lowercasing, as Python `str.lower` acts on the ASCII book data. -/
def pyToLower (c : Char) : Char :=
  if 'A' ≤ c ∧ c ≤ 'Z' then Char.ofNat (c.toNat + 32) else c

def pyLower (l : List Char) : List Char := l.map pyToLower

def pyLowerStr (s : String) : String := ⟨pyLower s.data⟩

/-- Python `str.strip()`: drop whitespace from both ends. -/
def pyStrip (l : List Char) : List Char :=
  ((l.dropWhile pyIsSpace).reverse.dropWhile pyIsSpace).reverse

/-- `re.sub(r"\s+", " ", s)`: each maximal whitespace run becomes one space.
The boolean records whether the scan is inside a whitespace run (structural
recursion so that the kernel can evaluate it). -/
def collapseWSGo : Bool → List Char → List Char
  | _, [] => []
  | inRun, c :: rest =>
    if pyIsSpace c then
      if inRun then collapseWSGo true rest else ' ' :: collapseWSGo true rest
    else c :: collapseWSGo false rest

def collapseWS (l : List Char) : List Char := collapseWSGo false l

/-- Python `str.replace(pat, rep)`, leftmost non-overlapping occurrences.
The fuel argument (instantiated with the input length) makes the recursion
structural; a match consumes at least one character, so the fuel never runs
out on the instantiated calls. -/
def pyReplaceGo (pat rep : List Char) : Nat → List Char → List Char
  | _, [] => []
  | 0, l => l
  | f + 1, c :: rest =>
    if pat.isPrefixOf (c :: rest) then
      rep ++ pyReplaceGo pat rep f ((c :: rest).drop pat.length)
    else
      c :: pyReplaceGo pat rep f rest

def pyReplace (pat rep : List Char) (l : List Char) : List Char :=
  pyReplaceGo pat rep l.length l

/-- Decimal digit to character (used to render labels like Python `str(int)`). -/
def digitChar (n : Nat) : Char :=
  match n with
  | 0 => '0' | 1 => '1' | 2 => '2' | 3 => '3' | 4 => '4'
  | 5 => '5' | 6 => '6' | 7 => '7' | 8 => '8' | 9 => '9'
  | _ => '0'

/-- Most-significant-first decimal digits, with structural fuel
(any `fuel ≥ n` yields all digits of `n` prepended to `acc`). -/
def natDigitsGo : Nat → Nat → List Char → List Char
  | _, 0, acc => acc
  | 0, _, acc => acc
  | f + 1, n, acc => natDigitsGo f (n / 10) (digitChar (n % 10) :: acc)

/-- Decimal rendering of a natural number. -/
def natDigits (n : Nat) : List Char :=
  if n = 0 then ['0'] else natDigitsGo n n []

/-- Python `str(int)`. -/
def intStr (n : Int) : String :=
  if n < 0 then ⟨'-' :: natDigits (-n).toNat⟩ else ⟨natDigits n.toNat⟩

/-- Python `int()` on a digit string (the regex guarantees digits only). -/
def atoi (l : List Char) : Int :=
  (l.foldl (fun a c => 10 * a + (c.toNat - 48)) 0 : Nat)

/-- The book table of `common_passages.py`: `(osis, name, aliases)`. -/
def BOOKS : List (String × String × List String) := [
  ("Gen", "Genesis", ["gen", "ge", "gn", "genesis"]),
  ("Exod", "Exodus", ["exod", "ex", "exo", "exodus"]),
  ("Lev", "Leviticus", ["lev", "le", "lv", "leviticus"]),
  ("Num", "Numbers", ["num", "nu", "nm", "numbers"]),
  ("Deut", "Deuteronomy", ["deut", "dt", "deuteronomy"]),
  ("Josh", "Joshua", ["josh", "jos", "joshua"]),
  ("Judg", "Judges", ["judg", "jg", "jdg", "judges"]),
  ("Ruth", "Ruth", ["ruth", "ru"]),
  ("1Sam", "1 Samuel", ["1 samuel", "1 sam", "1sa", "i samuel", "first samuel"]),
  ("2Sam", "2 Samuel", ["2 samuel", "2 sam", "2sa", "ii samuel", "second samuel"]),
  ("1Kgs", "1 Kings", ["1 kings", "1 kgs", "1ki", "i kings", "first kings"]),
  ("2Kgs", "2 Kings", ["2 kings", "2 kgs", "2ki", "ii kings", "second kings"]),
  ("1Chr", "1 Chronicles", ["1 chronicles", "1 chr", "1ch", "i chronicles", "first chronicles"]),
  ("2Chr", "2 Chronicles", ["2 chronicles", "2 chr", "2ch", "ii chronicles", "second chronicles"]),
  ("Ezra", "Ezra", ["ezra", "ezr"]),
  ("Neh", "Nehemiah", ["neh", "nehemiah"]),
  ("Esth", "Esther", ["esth", "est", "esther"]),
  ("Job", "Job", ["job"]),
  ("Ps", "Psalms", ["ps", "psalm", "psalms", "psa"]),
  ("Prov", "Proverbs", ["prov", "pr", "proverbs"]),
  ("Eccl", "Ecclesiastes", ["eccl", "ecc", "ecclesiastes"]),
  ("Song", "Song of Solomon", ["song", "song of solomon", "songs", "canticles"]),
  ("Isa", "Isaiah", ["isa", "isaiah"]),
  ("Jer", "Jeremiah", ["jer", "jeremiah"]),
  ("Lam", "Lamentations", ["lam", "lamentations"]),
  ("Ezek", "Ezekiel", ["ezek", "eze", "ezekiel"]),
  ("Dan", "Daniel", ["dan", "daniel"]),
  ("Hos", "Hosea", ["hos", "hosea"]),
  ("Joel", "Joel", ["joel", "jl"]),
  ("Amos", "Amos", ["amos", "am"]),
  ("Obad", "Obadiah", ["obad", "ob", "obadiah"]),
  ("Jonah", "Jonah", ["jonah", "jon"]),
  ("Mic", "Micah", ["mic", "micah"]),
  ("Nah", "Nahum", ["nah", "nahum"]),
  ("Hab", "Habakkuk", ["hab", "habakkuk"]),
  ("Zeph", "Zephaniah", ["zeph", "zep", "zephaniah"]),
  ("Hag", "Haggai", ["hag", "haggai"]),
  ("Zech", "Zechariah", ["zech", "zec", "zechariah"]),
  ("Mal", "Malachi", ["mal", "malachi"]),
  ("Matt", "Matthew", ["matt", "mt", "matthew"]),
  ("Mark", "Mark", ["mark", "mk", "mrk"]),
  ("Luke", "Luke", ["luke", "lk", "luk"]),
  ("John", "John", ["john", "jn", "jhn"]),
  ("Acts", "Acts", ["acts", "act"]),
  ("Rom", "Romans", ["rom", "ro", "romans"]),
  ("1Cor", "1 Corinthians", ["1 corinthians", "1 cor", "1co", "i corinthians", "first corinthians"]),
  ("2Cor", "2 Corinthians", ["2 corinthians", "2 cor", "2co", "ii corinthians", "second corinthians"]),
  ("Gal", "Galatians", ["gal", "ga", "galatians"]),
  ("Eph", "Ephesians", ["eph", "ephesians"]),
  ("Phil", "Philippians", ["phil", "php", "philippians"]),
  ("Col", "Colossians", ["col", "colossians"]),
  ("1Thess", "1 Thessalonians", ["1 thessalonians", "1 thess", "1th", "i thessalonians", "first thessalonians"]),
  ("2Thess", "2 Thessalonians", ["2 thessalonians", "2 thess", "2th", "ii thessalonians", "second thessalonians"]),
  ("1Tim", "1 Timothy", ["1 timothy", "1 tim", "1ti", "i timothy", "first timothy"]),
  ("2Tim", "2 Timothy", ["2 timothy", "2 tim", "2ti", "ii timothy", "second timothy"]),
  ("Titus", "Titus", ["titus", "tit"]),
  ("Phlm", "Philemon", ["philemon", "phm", "phlm"]),
  ("Heb", "Hebrews", ["heb", "hebrews"]),
  ("Jas", "James", ["james", "jas", "jm"]),
  ("1Pet", "1 Peter", ["1 peter", "1 pet", "1pe", "i peter", "first peter"]),
  ("2Pet", "2 Peter", ["2 peter", "2 pet", "2pe", "ii peter", "second peter"]),
  ("1John", "1 John", ["1 john", "1 jn", "1jo", "i john", "first john"]),
  ("2John", "2 John", ["2 john", "2 jn", "2jo", "ii john", "second john"]),
  ("3John", "3 John", ["3 john", "3 jn", "3jo", "iii john", "third john"]),
  ("Jude", "Jude", ["jude", "jud"]),
  ("Rev", "Revelation", ["rev", "re", "revelation", "apocalypse"])]

/-- The key/value assignments performed while building `BOOK_BY_ALIAS`
(`enumerate(BOOKS, start=1)`; for each book: name, osis, then aliases),
in insertion order. -/
def aliasAssignments : List (String × (Int × String × String)) :=
  (BOOKS.enum.map (fun e =>
    let osis := e.2.1
    let name := e.2.2.1
    let aliases := e.2.2.2
    let v : Int × String × String := ((e.1 : Int) + 1, osis, name)
    (pyLowerStr name, v) :: (pyLowerStr osis, v) :: aliases.map (fun a => (pyLowerStr a, v)))).flatten

/-- `BOOK_BY_ALIAS` as a lookup function; a Python dict keeps the value of the
last assignment for a key, so lookup scans the assignments in reverse. -/
def BOOK_BY_ALIAS (k : String) : Option (Int × String × String) :=
  (aliasAssignments.reverse.find? (fun kv => kv.1 = k)).map (fun kv => kv.2)

/-- `_normalize_book_phrase`: strip, lowercase, periods to spaces, collapse
whitespace, then Roman-numeral prefixes `iii `/`ii `/`i ` to digits. -/
def normalize_book_phrase (s : String) : String :=
  let l1 := pyLower (pyStrip s.data)
  let l2 := l1.map (fun c => if c = '.' then ' ' else c)
  let l3 := collapseWS l2
  let l4 := pyReplace ['i', 'i', 'i', ' '] ['3', ' '] l3
  let l5 := pyReplace ['i', 'i', ' '] ['2', ' '] l4
  let l6 := pyReplace ['i', ' '] ['1', ' '] l5
  ⟨l6⟩

/-- `match_book`. -/
def match_book (s : String) : Option (Int × String × String) :=
  BOOK_BY_ALIAS (normalize_book_phrase s)

/-- The `Passage` dataclass. -/
structure Passage where
  book_id : Int
  osis : String
  book_name : String
  chapter_start : Int
  verse_start : Option Int
  chapter_end : Int
  verse_end : Option Int
deriving DecidableEq, Repr

/-- `Passage.is_chapter_only`. -/
def Passage.is_chapter_only (p : Passage) : Bool :=
  p.verse_start.isNone && p.verse_end.isNone

/-- An optional int rendered inside a Python f-string (`None` prints "None"). -/
def optIntStr : Option Int → String
  | none => "None"
  | some v => intStr v

/-- `Passage.normalized_label`. -/
def Passage.normalized_label (p : Passage) : String :=
  if p.is_chapter_only then
    if p.chapter_start = p.chapter_end then
      p.book_name ++ " " ++ intStr p.chapter_start
    else
      p.book_name ++ " " ++ intStr p.chapter_start ++ "-" ++ intStr p.chapter_end
  else if p.chapter_start = p.chapter_end then
    if p.verse_start = p.verse_end then
      p.book_name ++ " " ++ intStr p.chapter_start ++ ":" ++ optIntStr p.verse_start
    else
      p.book_name ++ " " ++ intStr p.chapter_start ++ ":" ++ optIntStr p.verse_start
        ++ "-" ++ optIntStr p.verse_end
  else
    p.book_name ++ " " ++ intStr p.chapter_start ++ ":" ++ optIntStr p.verse_start
      ++ "-" ++ intStr p.chapter_end ++ ":" ++ optIntStr p.verse_end

/-- The character class `[A-Za-z .]` of the lazy book tail in `PASSAGE_RE`. -/
def bookTailChar (c : Char) : Bool := c.isAlpha || c = ' ' || c = '.'

/-- `[1-3]?\s*[A-Za-z]` — the mandatory head of the book group.  Returns the
consumed prefix (part of the `book` capture) and the remaining input.
If the optional leading digit is taken but no letter follows the spaces, the
only regex alternative (dropping the digit) also fails, since the character
at the digit position is not a letter. -/
def bookHead : List Char → Option (List Char × List Char)
  | [] => none
  | c :: rest =>
    if c = '1' ∨ c = '2' ∨ c = '3' then
      match rest.dropWhile pyIsSpace with
      | d :: r3 => if d.isAlpha then some (c :: (rest.takeWhile pyIsSpace ++ [d]), r3) else none
      | [] => none
    else if c.isAlpha then some ([c], rest) else none

/-- The lazy one-or-more tail `[A-Za-z .]+?` of the book group: extend the
book capture one character at a time, trying the rest of the pattern at each
(shortest-first) split, exactly as Python's lazy quantifier backtracks. -/
def lazyBookGen {β : Type} (restm : List Char → Option β) :
    List Char → List Char → Option (List Char × β)
  | _, [] => none
  | consumed, c :: rest =>
    if bookTailChar c then
      match restm rest with
      | some g => some (consumed ++ [c], g)
      | none => lazyBookGen restm (consumed ++ [c]) rest
    else none

/-- Captured groups of `PASSAGE_RE` (digit substrings, as matched). -/
structure REGroups where
  book : List Char
  c1 : List Char
  v1 : Option (List Char)
  c2 : Option (List Char)
  v2 : Option (List Char)
deriving DecidableEq, Repr

/-- The part of `PASSAGE_RE` after the book group:
`\s+(?P<c1>\d+)(?:\:(?P<v1>\d+))?(?:\s*-\s*(?:(?P<c2>\d+)\:)?(?P<v2>\d+)?)?\s*$`
(the pattern is compiled with `re.X`, so its literal spaces are ignored).
Greedy digit runs and the optional groups commit deterministically on this
grammar: shrinking a `\d+` leaves a digit where only `:`/`-`/space/end can
match, and un-taking a successful optional group leaves a `-` or `:` or digit
for `\s*$`, so no backtracking alternative can succeed where the committed
parse fails.

First, `(?:\s*-\s*(?:(?P<c2>\d+)\:)?(?P<v2>\d+)?)?\s*$` — the optional dash
group followed by the end anchor. -/
def dashPart (l : List Char) : Option (Option (List Char) × Option (List Char)) :=
  let ls := l.dropWhile pyIsSpace
  match ls with
  | '-' :: r =>
    let l4 := r.dropWhile pyIsSpace
    let d := l4.takeWhile Char.isDigit
    let l5 := l4.dropWhile Char.isDigit
    match l5 with
    | ':' :: r5 =>
      if d.isEmpty then
        -- no digits before the ':': the c2 subgroup cannot match, and a
        -- ':' can never satisfy `\s*$`, so the whole tail fails
        none
      else
        let v2 := r5.takeWhile Char.isDigit
        let l6 := r5.dropWhile Char.isDigit
        if (l6.dropWhile pyIsSpace).isEmpty then
          some (some d, if v2.isEmpty then none else some v2)
        else none
    | _ =>
      if (l5.dropWhile pyIsSpace).isEmpty then
        some (none, if d.isEmpty then none else some d)
      else none
  | _ => if ls.isEmpty then some (none, none) else none

def restMatch (l : List Char) :
    Option (List Char × Option (List Char) × Option (List Char) × Option (List Char)) :=
  match l with
  | [] => none
  | c :: r =>
    if pyIsSpace c then
      let l1 := r.dropWhile pyIsSpace
      let c1 := l1.takeWhile Char.isDigit
      let l2 := l1.dropWhile Char.isDigit
      if c1.isEmpty then none
      else
        match l2 with
        | ':' :: r2 =>
          let v1 := r2.takeWhile Char.isDigit
          if v1.isEmpty then none
          else
            (dashPart (r2.dropWhile Char.isDigit)).map (fun g => (c1, some v1, g.1, g.2))
        | _ => (dashPart l2).map (fun g => (c1, none, g.1, g.2))
    else none

/-- Full-match semantics of `PASSAGE_RE.match` on the (stripped) input. -/
def matchPassageRE (raw : List Char) : Option REGroups :=
  (bookHead (raw.dropWhile pyIsSpace)).bind (fun hr =>
    (lazyBookGen restMatch hr.1 hr.2).map (fun bg =>
      ⟨bg.1, bg.2.1, bg.2.2.1, bg.2.2.2.1, bg.2.2.2.2⟩))

/-- The part after the book group of the fallback chapter-range regex
`^\s*(?P<book>...)\s+(?P<c1>\d+)\s*-\s*(?P<c2>\d+)\s*$` used at
`common_passages.py:142`. -/
def rest2Match (l : List Char) : Option (List Char × List Char) :=
  match l with
  | [] => none
  | c :: r =>
    if pyIsSpace c then
      let l1 := r.dropWhile pyIsSpace
      let c1 := l1.takeWhile Char.isDigit
      if c1.isEmpty then none
      else
        match (l1.dropWhile Char.isDigit).dropWhile pyIsSpace with
        | '-' :: r2 =>
          let l3 := r2.dropWhile pyIsSpace
          let c2 := l3.takeWhile Char.isDigit
          if c2.isEmpty then none
          else if (((l3.dropWhile Char.isDigit).dropWhile pyIsSpace).isEmpty) then some (c1, c2)
          else none
        | _ => none
    else none

/-- Full-match semantics of the fallback chapter-range regex. -/
def matchM2 (raw : List Char) : Option (List Char × List Char × List Char) :=
  (bookHead (raw.dropWhile pyIsSpace)).bind (fun hr =>
    (lazyBookGen rest2Match hr.1 hr.2).map (fun bg => (bg.1, bg.2.1, bg.2.2)))

/-- `re.search(r"-\s*(\d+)\s*$", raw)` at `common_passages.py:166`: leftmost
`-` followed by spaces, digits (captured greedily), spaces, end-of-string. -/
def searchDashNum : List Char → Option (List Char)
  | [] => none
  | c :: rest =>
    if c = '-' then
      let l1 := rest.dropWhile pyIsSpace
      let d := l1.takeWhile Char.isDigit
      if ¬d.isEmpty ∧ (((l1.dropWhile Char.isDigit).dropWhile pyIsSpace).isEmpty) then some d
      else searchDashNum rest
    else searchDashNum rest

/-- Errors raised by `parse_passage` (all are Python `ValueError`s except
`attrError`, which models the `AttributeError` from calling `.group(1)` on a
failed `re.search` at line 166). -/
inductive ParseErr where
  | noParse | unknownBook | chapterOrder | verseOrder | ambiguous | attrError
deriving DecidableEq, Repr

/-- The body of `parse_passage` after `PASSAGE_RE` matched and the book was
resolved (lines 158-188 of `common_passages.py`). -/
def parseWithGroups (raw : List Char) (g : REGroups)
    (b : Int × String × String) (strict : Bool) : Except ParseErr Passage :=
  let c1 := atoi g.c1
  let v1 := g.v1.map atoi
  let c2 := match g.c2 with
    | some d => atoi d
    | none => c1
  let v2e : Except ParseErr (Option Int) :=
    match g.v2 with
    | some d => .ok (some (atoi d))
    | none =>
      if raw.contains '-' ∧ v1.isSome ∧ g.c2.isNone then
        -- `v2 = int(re.search(r"-\s*(\d+)\s*$", raw).group(1))`
        match searchDashNum raw with
        | some d => .ok (some (atoi d))
        | none => .error .attrError
      else .ok v1
  match v2e with
  | .error e => .error e
  | .ok v2 =>
    if v1.isNone ∧ raw.contains '-' ∧ g.v2.isSome ∧ strict then
      .error .ambiguous
    else if v1.isNone ∧ v2.isSome then
      if g.c2.isSome then .ok ⟨b.1, b.2.1, b.2.2, c1, none, c2, none⟩
      else .ok ⟨b.1, b.2.1, b.2.2, c1, none, c1, none⟩
    else
      let v2 := if v1.isSome ∧ v2.isNone then v1 else v2
      if c2 < c1 then .error .chapterOrder
      else if c1 = c2 ∧ v1.isSome ∧ v2.isSome ∧
          (v2.getD 0) < (v1.getD 0) then .error .verseOrder
      else .ok ⟨b.1, b.2.1, b.2.2, c1, v1, c2, v2⟩

instance {ε α : Type} [DecidableEq ε] [DecidableEq α] : DecidableEq (Except ε α) := fun x y =>
  match x, y with
  | .ok a, .ok b =>
    if h : a = b then isTrue (h ▸ rfl) else isFalse (fun hc => h (Except.ok.inj hc))
  | .error a, .error b =>
    if h : a = b then isTrue (h ▸ rfl) else isFalse (fun hc => h (Except.error.inj hc))
  | .ok _, .error _ => isFalse (fun hc => Except.noConfusion hc)
  | .error _, .ok _ => isFalse (fun hc => Except.noConfusion hc)

/-- `parse_passage(text, strict)`. -/
def parse_passage (text : String) (strict : Bool) : Except ParseErr Passage :=
  let raw := pyStrip text.data
  match matchPassageRE raw with
  | none =>
    match matchM2 raw with
    | none => .error .noParse
    | some (bk, c1d, c2d) =>
      match match_book ⟨bk⟩ with
      | none => .error .unknownBook
      | some b =>
        let c1 := atoi c1d
        let c2 := atoi c2d
        if c2 < c1 then .error .chapterOrder
        else .ok ⟨b.1, b.2.1, b.2.2, c1, none, c2, none⟩
  | some g =>
    match match_book ⟨g.book⟩ with
    | none => .error .unknownBook
    | some b => parseWithGroups raw g b strict

/-! ## Commentary store model (`common_db.py`)

The SQLite tables that the claims concern — `sources`, `entries`,
`coverage` — are modelled as lists (rows in insertion order; `coverage`
has a primary key over all four modelled columns, so `INSERT OR IGNORE`
becomes a membership test).  `utc_now()` is passed in as an explicit
`now` argument.  SQLite assigns an `INTEGER PRIMARY KEY` as
max(existing) + 1, which `nextRowId` reproduces. -/

structure SourceRow where
  id : Int
  commentator_key : String
  work_title : String
  source_url : String
  local_raw_path : String
  parser_name : String
  parser_version : String
  content_hash : Option String
  downloaded_at : String
deriving DecidableEq, Repr

structure EntryRow where
  id : Int
  source_id : Int
  commentator_key : String
  work_title : String
  book_id : Int
  chapter_start : Int
  verse_start : Option Int
  chapter_end : Int
  verse_end : Option Int
  granularity : String
  passage_label : String
  excerpt : String
  sort_chapter : Int
  sort_verse : Int
  created_at : String
deriving DecidableEq, Repr

/-- One row mapping passed to `replace_entries_for_source` (the caller
supplies every column except `id`, `source_id` and `created_at`). -/
structure NewEntry where
  commentator_key : String
  work_title : String
  book_id : Int
  chapter_start : Int
  verse_start : Option Int
  chapter_end : Int
  verse_end : Option Int
  granularity : String
  passage_label : String
  excerpt : String
  sort_chapter : Int
  sort_verse : Int
deriving DecidableEq, Repr

/-- A `coverage` row: (commentator_key, book_id, chapter_start, chapter_end);
the `notes` column is always NULL on this code path. -/
def CovKey : Type := String × Int × Int × Int

instance : DecidableEq CovKey := by unfold CovKey; infer_instance

structure DB where
  sources : List SourceRow
  entries : List EntryRow
  coverage : List CovKey
deriving DecidableEq

/-- `init_schema` on a fresh store: empty tables (the `books`/`book_aliases`
seed and the manifest marker are not consulted by the operations modelled
here). -/
def init_schema : DB := ⟨[], [], []⟩

def nextRowId (ids : List Int) : Int := (ids.foldl max 0) + 1

/-- `upsert_source`: insert-or-update keyed by
(commentator_key, work_title, local_raw_path); returns the row id. -/
def upsert_source (db : DB) (ck wt url path pn pv : String)
    (ch : Option String) (da : String) : DB × Int :=
  match db.sources.find? (fun s =>
      s.commentator_key = ck ∧ s.work_title = wt ∧ s.local_raw_path = path) with
  | some s =>
    ({ db with sources := db.sources.map (fun t =>
        if t.id = s.id then
          { t with source_url := url, parser_name := pn, parser_version := pv,
                   content_hash := ch, downloaded_at := da }
        else t) }, s.id)
  | none =>
    let nid := nextRowId (db.sources.map (fun s => s.id))
    ({ db with sources := db.sources ++
        [⟨nid, ck, wt, url, path, pn, pv, ch, da⟩] }, nid)

/-- The coverage tuple of an existing entries row. -/
def covOf (e : EntryRow) : CovKey :=
  (e.commentator_key, e.book_id, e.chapter_start, e.chapter_end)

/-- The coverage tuple of a row mapping being inserted. -/
def covOfNew (r : NewEntry) : CovKey :=
  (r.commentator_key, r.book_id, r.chapter_start, r.chapter_end)

/-- The entries row built by the INSERT in `replace_entries_for_source`. -/
def mkRow (id source_id : Int) (now : String) (r : NewEntry) : EntryRow :=
  ⟨id, source_id, r.commentator_key, r.work_title, r.book_id, r.chapter_start,
   r.verse_start, r.chapter_end, r.verse_end, r.granularity, r.passage_label,
   r.excerpt, r.sort_chapter, r.sort_verse, now⟩

/-- The insert loop of `replace_entries_for_source`: append each entries row
(with a fresh id) and add its coverage tuple unless already present
(`inserted_cov` plus `INSERT OR IGNORE` on the coverage primary key). -/
def insertEntries (db : DB) (source_id : Int) (now : String) :
    List NewEntry → DB
  | [] => db
  | r :: rest =>
    let nid := nextRowId (db.entries.map (fun e => e.id))
    let cov := covOfNew r
    let db' : DB :=
      { db with
        entries := db.entries ++ [mkRow nid source_id now r],
        coverage := if cov ∈ db.coverage then db.coverage else db.coverage ++ [cov] }
    insertEntries db' source_id now rest

/-- `replace_entries_for_source(conn, source_id, rows)`: collect the coverage
tuples of the source's current entries, delete those entries and those
coverage tuples, then insert the new rows. -/
def replace_entries_for_source (db : DB) (source_id : Int)
    (rows : List NewEntry) (now : String) : DB :=
  let cov_keys := (db.entries.filter (fun e => e.source_id = source_id)).map covOf
  let db1 : DB :=
    { db with
      entries := db.entries.filter (fun e => ¬e.source_id = source_id),
      coverage := db.coverage.filter (fun k => ¬k ∈ cov_keys) }
  insertEntries db1 source_id now rows

/-! ## Scoring and retrieval (`common_db.py` lines 241-323) -/

/-- The chapter-overlap candidate query `_sql_candidates` with its
`JOIN sources s ON s.id = e.source_id` (an inner join; `sources.id` is the
primary key, so at most one source row matches each entry). -/
def sql_candidates (db : DB) (p : Passage) : List (EntryRow × SourceRow) :=
  (db.entries.filter (fun e =>
      e.book_id = p.book_id ∧ e.chapter_start ≤ p.chapter_end ∧
      e.chapter_end ≥ p.chapter_start)).filterMap
    (fun e => (db.sources.find? (fun s => s.id = e.source_id)).map (fun s => (e, s)))

/-- Python truthiness fallback `x or d` for optional ints (`None` and `0`
are falsy). -/
def pyOrInt (x : Option Int) (d : Int) : Int :=
  match x with
  | none => d
  | some v => if v = 0 then d else v

/-- `_verse_overlap_score`. -/
def verse_overlap_score (p : Passage) (row : EntryRow) : ℚ :=
  if row.granularity = "chapter" then 1/5
  else if p.verse_start.isNone ∨ p.verse_end.isNone then
    if row.granularity = "range" then 7/20 else 1/4
  else if ¬row.chapter_start = p.chapter_start ∨ ¬row.chapter_end = p.chapter_end then 3/10
  else
    let rv1 := pyOrInt row.verse_start 1
    let rv2 := pyOrInt row.verse_end rv1
    let q1 := p.verse_start.getD 0
    let q2 := p.verse_end.getD 0
    let overlap : Int := max 0 (min rv2 q2 - max rv1 q1 + 1)
    if overlap ≤ 0 then 0
    else
      let qlen : Int := max 1 (q2 - q1 + 1)
      let rlen : Int := max 1 (rv2 - rv1 + 1)
      let ratioQ : ℚ := (overlap : ℚ) / (qlen : ℚ)
      let exactQ : ℚ := if rv1 = q1 ∧ rv2 = q2 then 1 else 0
      let tightQ : ℚ := (overlap : ℚ) / (rlen : ℚ)
      ratioQ * (3/5) + tightQ * (1/5) + exactQ * (1/5)

/-- `{"verse": 1.0, "range": 0.8, "chapter": 0.45}.get(granularity, 0.5)`. -/
def granularity_weight (g : String) : ℚ :=
  if g = "verse" then 1 else if g = "range" then 4/5
  else if g = "chapter" then 9/20 else 1/2

/-- `commentator_priority.get(key.lower(), 999)`; the priority mapping is
modelled as a partial function from commentator key to rank. -/
def priority_rank (prio : String → Option Int) (key : String) : Int :=
  (prio (pyLowerStr key)).getD 999

/-- `pref_bonus = max(0.0, 0.25 - min(pref_rank, 20) * 0.03)`. -/
def pref_bonus (prio : String → Option Int) (key : String) : ℚ :=
  max 0 (1/4 - (min (priority_rank prio key) 20 : Int) * (3/100))

/-- `len_bonus`: 0.05 for stripped excerpt length in [120, 1200], 0.02 when
over 40 characters, else 0. -/
def len_bonus (excerpt : String) : ℚ :=
  let excerpt_len : Int := (pyStrip excerpt.data).length
  if 120 ≤ excerpt_len ∧ excerpt_len ≤ 1200 then 1/20
  else if excerpt_len > 40 then 1/50 else 0

/-- `score_row`. -/
def score_row (row : EntryRow) (p : Passage) (prio : String → Option Int) : ℚ :=
  let gw := granularity_weight row.granularity
  let overlap := verse_overlap_score p row
  if overlap ≤ 0 ∧ ¬(p.verse_start.isNone ∧ row.granularity = "chapter") then 0
  else gw + overlap + pref_bonus prio row.commentator_key + len_bonus row.excerpt

/-- A scored candidate: (score, entries row, joined sources row). -/
def Scored : Type := ℚ × EntryRow × SourceRow

instance : DecidableEq Scored := by unfold Scored; infer_instance

/-- The Python sort key `(-score, sort_chapter, sort_verse, id)`, compared
lexicographically (ascending). -/
def sortRel (a b : Scored) : Prop :=
  -a.1 < -b.1 ∨ (-a.1 = -b.1 ∧
    (a.2.1.sort_chapter < b.2.1.sort_chapter ∨ (a.2.1.sort_chapter = b.2.1.sort_chapter ∧
      (a.2.1.sort_verse < b.2.1.sort_verse ∨ (a.2.1.sort_verse = b.2.1.sort_verse ∧
        a.2.1.id ≤ b.2.1.id)))))

instance : DecidableRel sortRel := fun a b => by unfold sortRel; infer_instance

instance : IsTotal Scored sortRel := by
  constructor
  intro a b
  unfold sortRel
  rcases lt_trichotomy (-a.1) (-b.1) with h | h | h
  · exact Or.inl (Or.inl h)
  · rcases lt_trichotomy a.2.1.sort_chapter b.2.1.sort_chapter with h2 | h2 | h2
    · exact Or.inl (Or.inr ⟨h, Or.inl h2⟩)
    · rcases lt_trichotomy a.2.1.sort_verse b.2.1.sort_verse with h3 | h3 | h3
      · exact Or.inl (Or.inr ⟨h, Or.inr ⟨h2, Or.inl h3⟩⟩)
      · rcases le_total a.2.1.id b.2.1.id with h4 | h4
        · exact Or.inl (Or.inr ⟨h, Or.inr ⟨h2, Or.inr ⟨h3, h4⟩⟩⟩)
        · exact Or.inr (Or.inr ⟨h.symm, Or.inr ⟨h2.symm, Or.inr ⟨h3.symm, h4⟩⟩⟩)
      · exact Or.inr (Or.inr ⟨h.symm, Or.inr ⟨h2.symm, Or.inl h3⟩⟩)
    · exact Or.inr (Or.inr ⟨h.symm, Or.inl h2⟩)
  · exact Or.inr (Or.inl h)

instance : IsTrans Scored sortRel := by
  constructor
  intro a b c hab hbc
  unfold sortRel at *
  rcases hab with h1 | ⟨e1, h1⟩
  · rcases hbc with h2 | ⟨e2, _⟩
    · exact Or.inl (h1.trans h2)
    · exact Or.inl (e2 ▸ h1)
  · rcases hbc with h2 | ⟨e2, h2⟩
    · exact Or.inl (e1 ▸ h2)
    · refine Or.inr ⟨e1.trans e2, ?_⟩
      rcases h1 with h1 | ⟨f1, h1⟩
      · rcases h2 with h2 | ⟨f2, _⟩
        · exact Or.inl (h1.trans h2)
        · exact Or.inl (f2 ▸ h1)
      · rcases h2 with h2 | ⟨f2, h2⟩
        · exact Or.inl (f1 ▸ h2)
        · refine Or.inr ⟨f1.trans f2, ?_⟩
          rcases h1 with h1 | ⟨g1, h1⟩
          · rcases h2 with h2 | ⟨g2, _⟩
            · exact Or.inl (h1.trans h2)
            · exact Or.inl (g2 ▸ h1)
          · rcases h2 with h2 | ⟨g2, h2⟩
            · exact Or.inl (g1 ▸ h2)
            · exact Or.inr ⟨g1.trans g2, h1.trans h2⟩

/-- The dedup key `(commentator_key, passage_label, excerpt[:120])`. -/
def dedupKey (e : EntryRow) : String × String × String :=
  (e.commentator_key, e.passage_label, ⟨e.excerpt.data.take 120⟩)

/-- The result-assembly loop of `search_entries`: walk the sorted candidates,
skip rows whose dedup key was already seen, append otherwise, and stop as
soon as `len(result) >= limit` (the check runs *after* the append). -/
def dedupTake (limit : Int) :
    List Scored → List (String × String × String) → List Scored → List Scored
  | [], _, acc => acc
  | t :: rest, seen, acc =>
    let k := dedupKey t.2.1
    if k ∈ seen then dedupTake limit rest seen acc
    else
      let acc' := acc ++ [t]
      if (acc'.length : Int) ≥ limit then acc'
      else dedupTake limit rest (k :: seen) acc'

/-- `search_entries` up to (but not including) building the result dicts:
candidate selection, scoring with the `s > 0` filter, the sort by
`(-score, sort_chapter, sort_verse, id)`, dedup and truncation. -/
def search_core (db : DB) (p : Passage) (prio : String → Option Int)
    (limit : Int) : List Scored :=
  let scored : List Scored := (sql_candidates db p).filterMap (fun es =>
    let s := score_row es.1 p prio
    if 0 < s then some (s, es.1, es.2) else none)
  dedupTake limit (scored.insertionSort sortRel) [] []

/-- One returned result dict.  The source rounds the reported score with
`round(float(score), 4)` for display; the model keeps the exact value. -/
structure ResultItem where
  id : Int
  commentator : String
  work : String
  coverage : String
  granularity : String
  excerpt : String
  source_url : String
  local_raw_path : String
  score : ℚ
deriving DecidableEq, Repr

def mkItem (t : Scored) : ResultItem :=
  ⟨t.2.1.id, t.2.1.commentator_key, t.2.1.work_title, t.2.1.passage_label,
   t.2.1.granularity, t.2.1.excerpt, t.2.2.source_url, t.2.2.local_raw_path, t.1⟩

/-- `search_entries(conn, passage, commentator_priority, limit)`. -/
def search_entries (db : DB) (p : Passage) (prio : String → Option Int)
    (limit : Int) : List ResultItem :=
  (search_core db p prio limit).map mkItem

/-! ## Concrete scenario: the seed of `tests/test_common_db.py` —
a chapter-granularity entry at Romans 8 and a verse-granularity entry at
Romans 8:28, both from commentator "henry", queried with "Romans 8:28". -/

def chapterEntry : NewEntry :=
  ⟨"henry", "Henry", 45, 8, none, 8, none, "chapter", "Romans 8",
   "Chapter summary", 8, 0⟩

def verseEntry : NewEntry :=
  ⟨"henry", "Henry", 45, 8, some 28, 8, some 28, "verse", "Romans 8:28",
   "Verse summary", 8, 28⟩

def scenarioDB : DB :=
  let up := upsert_source init_schema "henry" "Henry" "https://example.com"
    "/tmp/raw" "test" "1" none "2024-01-01T00:00:00Z"
  replace_entries_for_source up.1 up.2 [chapterEntry, verseEntry]
    "2024-01-01T00:00:00Z"

def romansQuery : Passage := ⟨45, "Rom", "Romans", 8, some 28, 8, some 28⟩

def prioHenry : String → Option Int := fun k => if k = "henry" then some 0 else none

/-! ## Proof infrastructure: character classes and list scans -/

/-- A plain letter as it occurs inside a book name or alias: alphabetic and
definitely not a digit, whitespace, or any of the punctuation the passage
grammar cares about. -/
def letterChar (c : Char) : Bool :=
  c.isAlpha && !c.isDigit && !pyIsSpace c && !(c = ':') && !(c = '-') && !(c = '.')

/-- A character allowed in the tail of a well-formed book phrase. -/
def goodTailChar (c : Char) : Bool := letterChar c || c = ' '

/-- A decimal digit with all the negative class facts the parsing proofs
need. -/
def digitOk (c : Char) : Bool :=
  c.isDigit && !pyIsSpace c && !(c = ':') && !(c = '-') && !bookTailChar c

/-! ## Decimal rendering: value round-trip and character facts -/

/-- Digit count along the same fuelled recursion as `natDigitsGo`. -/
def digCountGo : Nat → Nat → Nat
  | _, 0 => 0
  | 0, _ => 0
  | f + 1, n => digCountGo f (n / 10) + 1

/-! ## Well-formed book phrases and the lazy book capture -/

/-- The head split `[1-3]?\s*[A-Za-z]` applied to a book phrase on its own
(same case structure as `bookHead`). -/
def nameSplit : List Char → Option (List Char × List Char)
  | [] => none
  | c :: rest =>
    if c = '1' ∨ c = '2' ∨ c = '3' then
      match rest.dropWhile pyIsSpace with
      | d :: r3 =>
        if d.isAlpha then some (c :: (rest.takeWhile pyIsSpace ++ [d]), r3) else none
      | [] => none
    else if c.isAlpha then some ([c], rest) else none

/-- A book phrase (name or alias) for which the lazy book capture provably
consumes exactly the phrase when a passage tail follows: the head split
succeeds, the remaining tail is nonempty, consists of letters and single
spaces, ends in a letter, the phrase starts with a non-space and contains
no dash. -/
def goodBook (name : List Char) : Bool :=
  match nameSplit name with
  | some (_, nrest) =>
    !pyIsSpace (name.headD 'x') &&
    !name.contains '-' &&
    !nrest.isEmpty &&
    nrest.all goodTailChar &&
    letterChar (nrest.getLastD 'x')
  | none => false

/-- The §3 Passage invariants together with consistency of the book fields
with the registry (`book_id` is the 1-based index, `osis`/`book_name` come
from that row). -/
def Passage.valid (p : Passage) : Bool :=
  1 ≤ p.book_id &&
  (match BOOKS[(p.book_id - 1).toNat]? with
   | some b => p.osis = b.1 && p.book_name = b.2.1
   | none => false) &&
  1 ≤ p.chapter_start && p.chapter_start ≤ p.chapter_end &&
  (match p.verse_start, p.verse_end with
   | none, none => true
   | some a, some b2 => 1 ≤ a && 1 ≤ b2 && (!(p.chapter_start = p.chapter_end) || a ≤ b2)
   | _, _ => false)

/-- Registry rows `lo ≤ i < lo + n` behave: the display name is a good book
phrase and `match_book` maps it to its own row. -/
def bookFactsCheckOn (lo n : Nat) : Bool :=
  (List.range' lo n).all (fun i =>
    match BOOKS[i]? with
    | some b => goodBook b.2.1.data && decide (match_book b.2.1 = some ((i : Int) + 1, b.1, b.2.1))
    | none => false)

/-! ## Claim C9 (ambiguous chapter-dash-verse form) -/

/-- The string `"B C-V"` — book phrase, space, chapter, dash, number, no
colon anywhere. -/
def chapterDashVerse (B : String) (C V : Int) : String :=
  B ++ " " ++ intStr C ++ "-" ++ intStr V

/-- Every alias key in the registry is a good book phrase and resolves. -/
def aliasFactsCheck : Bool :=
  aliasAssignments.all (fun kv =>
    goodBook kv.1.data &&
      (decide (normalize_book_phrase kv.1 = kv.1) ||
        aliasAssignments.any (fun q => q.1 = normalize_book_phrase kv.1)))

/-! ## Claim C7 (replace-twice leaves exactly the second entry set) -/

/-- An entries row with its (auto-assigned) id cleared, for comparing row
contents independently of rowids. -/
def dropId (e : EntryRow) : EntryRow := { e with id := 0 }

/-! ## Claim C8 (coverage is a projection of current entries) -/

/-- The claimed invariant: the coverage table holds exactly the tuples
occurring in some current entries row. -/
def covInv (db : DB) : Prop :=
  ∀ k : CovKey, k ∈ db.coverage ↔ ∃ e ∈ db.entries, covOf e = k

/-- A sequence of `replace_entries_for_source` calls `(source_id, now, rows)`
run against a store. -/
def runCalls (db : DB) : List (Int × String × List NewEntry) → DB
  | [] => db
  | c :: rest => runCalls (replace_entries_for_source db c.1 c.2.2 c.2.1) rest

/-- A chapter entry used by the C8 counterexample, shared verbatim by two
different sources of the same commentator. -/
def sharedEntry : NewEntry :=
  ⟨"henry", "W", 45, 8, none, 8, none, "chapter", "Romans 8", "x", 8, 0⟩

/-- An injective tagging of source ids by strings, used to witness the
amended C8 theorem. -/
def tagIntStr (s : Int) : String :=
  if 0 ≤ s then ⟨'p' :: natDigits s.toNat⟩ else ⟨'n' :: natDigits (-s).toNat⟩

/-- An entry whose commentator key is `tagIntStr 1 = "p1"`. -/
def taggedEntry : NewEntry :=
  ⟨"p1", "W", 45, 8, none, 8, none, "chapter", "Romans 8", "x", 8, 0⟩

/-! ## Claim C10 (result limit and sort order) -/

/-- The claimed result ordering: strictly descending score, ties resolved by
ascending `(sort_chapter, sort_verse, id)`. -/
def rankedBefore (a b : Scored) : Prop :=
  b.1 < a.1 ∨ (a.1 = b.1 ∧
    (a.2.1.sort_chapter < b.2.1.sort_chapter ∨ (a.2.1.sort_chapter = b.2.1.sort_chapter ∧
      (a.2.1.sort_verse < b.2.1.sort_verse ∨ (a.2.1.sort_verse = b.2.1.sort_verse ∧
        a.2.1.id ≤ b.2.1.id)))))

/-! ## Theorems -/

theorem digitOk_digitChar (n : Nat) : digitOk (digitChar n) = true := by
  unfold digitChar
  split <;> decide

theorem digitChar_val (n : Nat) (h : n < 10) : (digitChar n).toNat - 48 = n := by
  interval_cases n <;> decide

/-- `takeWhile` walks through a prefix on which the predicate holds. -/
theorem takeWhile_append_all {p : Char → Bool} {ds rest : List Char}
    (h : ∀ c ∈ ds, p c = true) :
    (ds ++ rest).takeWhile p = ds ++ rest.takeWhile p := by
  induction ds with
  | nil => simp
  | cons c t ih =>
    simp only [List.cons_append, List.takeWhile_cons, h c (by simp)]
    simp [ih (fun x hx => h x (by simp [hx]))]

theorem dropWhile_append_all {p : Char → Bool} {ds rest : List Char}
    (h : ∀ c ∈ ds, p c = true) :
    (ds ++ rest).dropWhile p = rest.dropWhile p := by
  induction ds with
  | nil => simp
  | cons c t ih =>
    simp only [List.cons_append, List.dropWhile_cons, h c (by simp)]
    simp [ih (fun x hx => h x (by simp [hx]))]

theorem takeWhile_cons_neg {p : Char → Bool} {c : Char} {l : List Char}
    (h : p c = false) : (c :: l).takeWhile p = [] := by
  simp [List.takeWhile_cons, h]

theorem dropWhile_cons_neg {p : Char → Bool} {c : Char} {l : List Char}
    (h : p c = false) : (c :: l).dropWhile p = c :: l := by
  simp [List.dropWhile_cons, h]

theorem contains_append {a : Char} {l1 l2 : List Char} :
    (l1 ++ l2).contains a = (l1.contains a || l2.contains a) := by
  induction l1 with
  | nil => simp
  | cons c t ih => simp [List.contains_cons, ih, Bool.or_assoc]

theorem natDigitsGo_val (f : Nat) :
    ∀ n acc (a : Nat), n ≤ f →
      (natDigitsGo f n acc).foldl (fun x c => 10 * x + (c.toNat - 48)) a =
      acc.foldl (fun x c => 10 * x + (c.toNat - 48)) (a * 10 ^ digCountGo f n + n) := by
  induction f with
  | zero =>
    intro n acc a hn
    interval_cases n
    simp [natDigitsGo, digCountGo]
  | succ f ih =>
    intro n acc a hn
    match n with
    | 0 => simp [natDigitsGo, digCountGo]
    | m + 1 =>
      have hdiv : (m + 1) / 10 ≤ f := by
        have := Nat.div_lt_self (n := m + 1) (by omega) (by omega : 1 < 10)
        omega
      rw [show natDigitsGo (f + 1) (m + 1) acc =
          natDigitsGo f ((m + 1) / 10) (digitChar ((m + 1) % 10) :: acc) from rfl]
      rw [ih ((m + 1) / 10) _ a hdiv]
      simp only [List.foldl_cons]
      have hmod : (digitChar ((m + 1) % 10)).toNat - 48 = (m + 1) % 10 :=
        digitChar_val _ (Nat.mod_lt _ (by omega))
      rw [hmod]
      rw [show digCountGo (f + 1) (m + 1) = digCountGo f ((m + 1) / 10) + 1 from rfl]
      congr 1
      have : 10 * ((m + 1) / 10) + (m + 1) % 10 = m + 1 := Nat.div_add_mod (m + 1) 10
      ring_nf
      omega

theorem natDigitsGo_chars (f : Nat) :
    ∀ n acc, (∀ c ∈ acc, digitOk c = true) →
      ∀ c ∈ natDigitsGo f n acc, digitOk c = true := by
  induction f with
  | zero =>
    intro n acc hacc c hc
    match n with
    | 0 => exact hacc c hc
    | _ + 1 => exact hacc c hc
  | succ f ih =>
    intro n acc hacc c hc
    match n with
    | 0 => exact hacc c hc
    | m + 1 =>
      refine ih ((m + 1) / 10) _ ?_ c hc
      intro x hx
      rw [List.mem_cons] at hx
      rcases hx with rfl | hx
      · exact digitOk_digitChar _
      · exact hacc x hx

theorem natDigitsGo_ne_nil (f : Nat) :
    ∀ n acc, 0 < n → n ≤ f → natDigitsGo f n acc ≠ [] := by
  induction f with
  | zero => intro n acc h1 h2; omega
  | succ f ih =>
    intro n acc h1 _
    match n with
    | m + 1 =>
      show natDigitsGo f ((m + 1) / 10) (digitChar ((m + 1) % 10) :: acc) ≠ []
      by_cases hz : (m + 1) / 10 = 0
      · rw [hz]
        match f with
        | 0 => simp [natDigitsGo]
        | _ + 1 => simp [natDigitsGo]
      · have hdiv : (m + 1) / 10 ≤ f := by
          have := Nat.div_lt_self (n := m + 1) (by omega) (by omega : 1 < 10)
          omega
        exact ih _ _ (by omega) hdiv

theorem natDigits_chars {n : Nat} : ∀ c ∈ natDigits n, digitOk c = true := by
  unfold natDigits
  by_cases h : n = 0
  · subst h
    intro c hc
    have hc0 : c = '0' := by simpa using hc
    subst hc0
    decide
  · simp only [if_neg h]
    exact natDigitsGo_chars n n [] (by simp)

theorem natDigits_ne_nil {n : Nat} : natDigits n ≠ [] := by
  unfold natDigits
  by_cases h : n = 0
  · simp [h]
  · simp only [if_neg h]
    exact natDigitsGo_ne_nil n n [] (by omega) le_rfl

theorem natDigits_val (n : Nat) :
    (natDigits n).foldl (fun x c => 10 * x + (c.toNat - 48)) 0 = n := by
  unfold natDigits
  by_cases h : n = 0
  · simp [h]
  · simp only [if_neg h]
    rw [natDigitsGo_val n n [] 0 le_rfl]
    simp

theorem atoi_natDigits (n : Nat) : atoi (natDigits n) = (n : Int) := by
  unfold atoi
  rw [natDigits_val]

/-! ## Character-class extraction lemmas -/

theorem digitOk_isDigit {c : Char} (h : digitOk c = true) : c.isDigit = true := by
  simp only [digitOk, Bool.and_eq_true] at h
  exact h.1.1.1.1

theorem digitOk_not_space {c : Char} (h : digitOk c = true) : pyIsSpace c = false := by
  simp only [digitOk, Bool.and_eq_true, Bool.not_eq_true'] at h
  exact h.1.1.1.2

theorem digitOk_not_bookTail {c : Char} (h : digitOk c = true) : bookTailChar c = false := by
  simp only [digitOk, Bool.and_eq_true, Bool.not_eq_true'] at h
  exact h.2

theorem digitOk_ne_dash {c : Char} (h : digitOk c = true) : ¬c = '-' := by
  simp only [digitOk, Bool.and_eq_true, Bool.not_eq_true', decide_eq_false_iff_not] at h
  exact h.1.2

theorem letterChar_isAlpha {c : Char} (h : letterChar c = true) : c.isAlpha = true := by
  simp only [letterChar, Bool.and_eq_true] at h
  exact h.1.1.1.1.1

theorem letterChar_not_digit {c : Char} (h : letterChar c = true) : c.isDigit = false := by
  simp only [letterChar, Bool.and_eq_true, Bool.not_eq_true'] at h
  exact h.1.1.1.1.2

theorem letterChar_not_space {c : Char} (h : letterChar c = true) : pyIsSpace c = false := by
  simp only [letterChar, Bool.and_eq_true, Bool.not_eq_true'] at h
  exact h.1.1.1.2

theorem letterChar_space : letterChar ' ' = false := by decide

theorem goodTailChar_bookTail {c : Char} (h : goodTailChar c = true) : bookTailChar c = true := by
  simp only [goodTailChar, Bool.or_eq_true, decide_eq_true_eq] at h
  rcases h with h | h
  · simp [bookTailChar, letterChar_isAlpha h]
  · subst h; decide

/-! ## List-scan lemmas -/

theorem takeWhile_all {p : Char → Bool} {l : List Char}
    (h : ∀ c ∈ l, p c = true) : l.takeWhile p = l := by
  induction l with
  | nil => simp
  | cons c t ih =>
    simp [List.takeWhile_cons, h c (by simp), ih (fun x hx => h x (by simp [hx]))]

theorem dropWhile_all {p : Char → Bool} {l : List Char}
    (h : ∀ c ∈ l, p c = true) : l.dropWhile p = [] := by
  induction l with
  | nil => simp
  | cons c t ih =>
    simp [List.dropWhile_cons, h c (by simp), ih (fun x hx => h x (by simp [hx]))]

theorem scan_append_of_dropWhile_cons {p : Char → Bool} {l : List Char} {d : Char}
    {r3 : List Char} (h : l.dropWhile p = d :: r3) (t : List Char) :
    (l ++ t).dropWhile p = d :: (r3 ++ t) ∧ (l ++ t).takeWhile p = l.takeWhile p := by
  induction l with
  | nil => simp at h
  | cons c l' ih =>
    by_cases hc : p c
    · rw [List.dropWhile_cons_of_pos hc] at h
      obtain ⟨h1, h2⟩ := ih h
      constructor
      · rw [List.cons_append, List.dropWhile_cons_of_pos hc, h1]
      · rw [List.cons_append, List.takeWhile_cons_of_pos hc,
          List.takeWhile_cons_of_pos hc, h2]
    · rw [List.dropWhile_cons_of_neg hc] at h
      obtain ⟨rfl, rfl⟩ : c = d ∧ l' = r3 := by
        cases h; exact ⟨rfl, rfl⟩
      constructor
      · rw [List.cons_append, List.dropWhile_cons_of_neg hc]
      · rw [List.cons_append, List.takeWhile_cons_of_neg hc,
          List.takeWhile_cons_of_neg hc]

/-! ## `dashPart` on the concrete label tails -/

theorem dashPart_nil : dashPart [] = some (none, none) := by decide

theorem dashPart_digits {e : Char} {es : List Char}
    (h : ∀ c ∈ e :: es, digitOk c = true) :
    dashPart ('-' :: e :: es) = some (none, some (e :: es)) := by
  have hdig : ∀ c ∈ e :: es, Char.isDigit c = true :=
    fun c hc => digitOk_isDigit (h c hc)
  have e1 : List.dropWhile pyIsSpace ('-' :: e :: es) = '-' :: e :: es :=
    dropWhile_cons_neg (by decide)
  have e2 : List.dropWhile pyIsSpace (e :: es) = e :: es :=
    dropWhile_cons_neg (digitOk_not_space (h e (by simp)))
  have e3 : List.takeWhile Char.isDigit (e :: es) = e :: es := takeWhile_all hdig
  have e4 : List.dropWhile Char.isDigit (e :: es) = [] := dropWhile_all hdig
  simp only [dashPart, e1, e2, e3, e4, List.dropWhile_nil, List.isEmpty_nil,
    List.isEmpty_cons, Bool.false_eq_true, if_false, if_true]

theorem dashPart_c2 {e : Char} {es : List Char} {w : Char} {ws : List Char}
    (h2 : ∀ c ∈ e :: es, digitOk c = true)
    (h3 : ∀ c ∈ w :: ws, digitOk c = true) :
    dashPart ('-' :: ((e :: es) ++ ':' :: w :: ws)) = some (some (e :: es), some (w :: ws)) := by
  have hdig2 : ∀ c ∈ e :: es, Char.isDigit c = true :=
    fun c hc => digitOk_isDigit (h2 c hc)
  have hdig3 : ∀ c ∈ w :: ws, Char.isDigit c = true :=
    fun c hc => digitOk_isDigit (h3 c hc)
  have e2 : List.dropWhile pyIsSpace (e :: (es ++ ':' :: w :: ws))
      = e :: (es ++ ':' :: w :: ws) :=
    dropWhile_cons_neg (digitOk_not_space (h2 e (by simp)))
  have e3 : List.takeWhile Char.isDigit (e :: (es ++ ':' :: w :: ws)) = e :: es := by
    rw [← List.cons_append, takeWhile_append_all hdig2,
      takeWhile_cons_neg (by decide : Char.isDigit ':' = false), List.append_nil]
  have e4 : List.dropWhile Char.isDigit (e :: (es ++ ':' :: w :: ws)) = ':' :: w :: ws := by
    rw [← List.cons_append, dropWhile_append_all hdig2,
      dropWhile_cons_neg (by decide : Char.isDigit ':' = false)]
  have e5 : List.takeWhile Char.isDigit (w :: ws) = w :: ws := takeWhile_all hdig3
  have e6 : List.dropWhile Char.isDigit (w :: ws) = [] := dropWhile_all hdig3
  simp only [dashPart, List.cons_append]
  simp only [List.dropWhile_cons_of_neg (by decide : ¬pyIsSpace '-' = true)]
  simp only [e2, e3, e4, e5, e6, List.dropWhile_nil, List.isEmpty_nil,
    List.isEmpty_cons, Bool.false_eq_true, if_false, if_true]

/-! ## `restMatch` on the concrete label tails -/

theorem restMatch_chapter {d : Char} {ds' : List Char}
    (h1 : ∀ c ∈ d :: ds', digitOk c = true) :
    restMatch (' ' :: d :: ds') = some (d :: ds', none, none, none) := by
  have hdig : ∀ c ∈ d :: ds', Char.isDigit c = true :=
    fun c hc => digitOk_isDigit (h1 c hc)
  have e1 : List.dropWhile pyIsSpace (d :: ds') = d :: ds' :=
    dropWhile_cons_neg (digitOk_not_space (h1 d (by simp)))
  have e2 : List.takeWhile Char.isDigit (d :: ds') = d :: ds' := takeWhile_all hdig
  have e3 : List.dropWhile Char.isDigit (d :: ds') = [] := dropWhile_all hdig
  simp only [restMatch]
  rw [if_pos (by decide)]
  simp only [e1, e2, e3, List.isEmpty_cons, Bool.false_eq_true, if_false, dashPart_nil]
  rfl

theorem restMatch_verse {d : Char} {ds' : List Char} {e : Char} {es : List Char}
    (h1 : ∀ c ∈ d :: ds', digitOk c = true)
    (h2 : ∀ c ∈ e :: es, digitOk c = true) :
    restMatch (' ' :: ((d :: ds') ++ ':' :: e :: es)) =
      some (d :: ds', some (e :: es), none, none) := by
  have hdig1 : ∀ c ∈ d :: ds', Char.isDigit c = true :=
    fun c hc => digitOk_isDigit (h1 c hc)
  have hdig2 : ∀ c ∈ e :: es, Char.isDigit c = true :=
    fun c hc => digitOk_isDigit (h2 c hc)
  have e1 : List.dropWhile pyIsSpace (d :: (ds' ++ ':' :: e :: es))
      = d :: (ds' ++ ':' :: e :: es) :=
    dropWhile_cons_neg (digitOk_not_space (h1 d (by simp)))
  have e2 : List.takeWhile Char.isDigit (d :: (ds' ++ ':' :: e :: es)) = d :: ds' := by
    rw [← List.cons_append, takeWhile_append_all hdig1,
      takeWhile_cons_neg (by decide : Char.isDigit ':' = false), List.append_nil]
  have e3 : List.dropWhile Char.isDigit (d :: (ds' ++ ':' :: e :: es)) = ':' :: e :: es := by
    rw [← List.cons_append, dropWhile_append_all hdig1,
      dropWhile_cons_neg (by decide : Char.isDigit ':' = false)]
  have e4 : List.takeWhile Char.isDigit (e :: es) = e :: es := takeWhile_all hdig2
  have e5 : List.dropWhile Char.isDigit (e :: es) = [] := dropWhile_all hdig2
  simp only [restMatch, List.cons_append]
  rw [if_pos (by decide)]
  simp only [e1, e2, e3, e4, e5, List.isEmpty_cons, Bool.false_eq_true, if_false,
    dashPart_nil]
  rfl

theorem restMatch_verse_range {d : Char} {ds' : List Char} {e : Char} {es : List Char}
    {w : Char} {ws : List Char}
    (h1 : ∀ c ∈ d :: ds', digitOk c = true)
    (h2 : ∀ c ∈ e :: es, digitOk c = true)
    (h3 : ∀ c ∈ w :: ws, digitOk c = true) :
    restMatch (' ' :: ((d :: ds') ++ ':' :: ((e :: es) ++ '-' :: w :: ws))) =
      some (d :: ds', some (e :: es), none, some (w :: ws)) := by
  have hdig1 : ∀ c ∈ d :: ds', Char.isDigit c = true :=
    fun c hc => digitOk_isDigit (h1 c hc)
  have hdig2 : ∀ c ∈ e :: es, Char.isDigit c = true :=
    fun c hc => digitOk_isDigit (h2 c hc)
  have e1 : List.dropWhile pyIsSpace (d :: (ds' ++ ':' :: (e :: (es ++ '-' :: w :: ws))))
      = d :: (ds' ++ ':' :: (e :: (es ++ '-' :: w :: ws))) :=
    dropWhile_cons_neg (digitOk_not_space (h1 d (by simp)))
  have e2 : List.takeWhile Char.isDigit (d :: (ds' ++ ':' :: (e :: (es ++ '-' :: w :: ws))))
      = d :: ds' := by
    rw [← List.cons_append, takeWhile_append_all hdig1,
      takeWhile_cons_neg (by decide : Char.isDigit ':' = false), List.append_nil]
  have e3 : List.dropWhile Char.isDigit (d :: (ds' ++ ':' :: (e :: (es ++ '-' :: w :: ws))))
      = ':' :: (e :: (es ++ '-' :: w :: ws)) := by
    rw [← List.cons_append, dropWhile_append_all hdig1,
      dropWhile_cons_neg (by decide : Char.isDigit ':' = false)]
  have e4 : List.takeWhile Char.isDigit (e :: (es ++ '-' :: w :: ws)) = e :: es := by
    rw [← List.cons_append, takeWhile_append_all hdig2,
      takeWhile_cons_neg (by decide : Char.isDigit '-' = false), List.append_nil]
  have e5 : List.dropWhile Char.isDigit (e :: (es ++ '-' :: w :: ws)) = '-' :: w :: ws := by
    rw [← List.cons_append, dropWhile_append_all hdig2,
      dropWhile_cons_neg (by decide : Char.isDigit '-' = false)]
  simp only [restMatch, List.cons_append]
  rw [if_pos (by decide)]
  simp only [e1, e2, e3, e4, e5, List.isEmpty_cons, Bool.false_eq_true, if_false,
    dashPart_digits h3]
  rfl

theorem restMatch_cross_chapter {d : Char} {ds' : List Char} {e : Char} {es : List Char}
    {f : Char} {fs : List Char} {w : Char} {ws : List Char}
    (h1 : ∀ c ∈ d :: ds', digitOk c = true)
    (h2 : ∀ c ∈ e :: es, digitOk c = true)
    (h3 : ∀ c ∈ f :: fs, digitOk c = true)
    (h4 : ∀ c ∈ w :: ws, digitOk c = true) :
    restMatch (' ' :: ((d :: ds') ++ ':' :: ((e :: es) ++ '-' :: ((f :: fs) ++ ':' :: w :: ws)))) =
      some (d :: ds', some (e :: es), some (f :: fs), some (w :: ws)) := by
  have hdig1 : ∀ c ∈ d :: ds', Char.isDigit c = true :=
    fun c hc => digitOk_isDigit (h1 c hc)
  have hdig2 : ∀ c ∈ e :: es, Char.isDigit c = true :=
    fun c hc => digitOk_isDigit (h2 c hc)
  have e1 : List.dropWhile pyIsSpace
      (d :: (ds' ++ ':' :: (e :: (es ++ '-' :: (f :: (fs ++ ':' :: w :: ws))))))
      = d :: (ds' ++ ':' :: (e :: (es ++ '-' :: (f :: (fs ++ ':' :: w :: ws))))) :=
    dropWhile_cons_neg (digitOk_not_space (h1 d (by simp)))
  have e2 : List.takeWhile Char.isDigit
      (d :: (ds' ++ ':' :: (e :: (es ++ '-' :: (f :: (fs ++ ':' :: w :: ws))))))
      = d :: ds' := by
    rw [← List.cons_append, takeWhile_append_all hdig1,
      takeWhile_cons_neg (by decide : Char.isDigit ':' = false), List.append_nil]
  have e3 : List.dropWhile Char.isDigit
      (d :: (ds' ++ ':' :: (e :: (es ++ '-' :: (f :: (fs ++ ':' :: w :: ws))))))
      = ':' :: (e :: (es ++ '-' :: (f :: (fs ++ ':' :: w :: ws)))) := by
    rw [← List.cons_append, dropWhile_append_all hdig1,
      dropWhile_cons_neg (by decide : Char.isDigit ':' = false)]
  have e4 : List.takeWhile Char.isDigit (e :: (es ++ '-' :: (f :: (fs ++ ':' :: w :: ws))))
      = e :: es := by
    rw [← List.cons_append, takeWhile_append_all hdig2,
      takeWhile_cons_neg (by decide : Char.isDigit '-' = false), List.append_nil]
  have e5 : List.dropWhile Char.isDigit (e :: (es ++ '-' :: (f :: (fs ++ ':' :: w :: ws))))
      = '-' :: (f :: (fs ++ ':' :: w :: ws)) := by
    rw [← List.cons_append, dropWhile_append_all hdig2,
      dropWhile_cons_neg (by decide : Char.isDigit '-' = false)]
  have e6 : dashPart ('-' :: (f :: (fs ++ ':' :: w :: ws)))
      = some (some (f :: fs), some (w :: ws)) := by
    rw [show (f :: (fs ++ ':' :: w :: ws) : List Char) = (f :: fs) ++ ':' :: w :: ws by simp]
    exact dashPart_c2 h3 h4
  simp only [restMatch, List.cons_append]
  rw [if_pos (by decide)]
  simp only [e1, e2, e3, e4, e5, e6, List.isEmpty_cons, Bool.false_eq_true, if_false]
  rfl

theorem restMatch_chapter_dash {d : Char} {ds' : List Char} {w : Char} {ws : List Char}
    (h1 : ∀ c ∈ d :: ds', digitOk c = true)
    (h3 : ∀ c ∈ w :: ws, digitOk c = true) :
    restMatch (' ' :: ((d :: ds') ++ '-' :: w :: ws)) =
      some (d :: ds', none, none, some (w :: ws)) := by
  have hdig1 : ∀ c ∈ d :: ds', Char.isDigit c = true :=
    fun c hc => digitOk_isDigit (h1 c hc)
  have e1 : List.dropWhile pyIsSpace (d :: (ds' ++ '-' :: w :: ws))
      = d :: (ds' ++ '-' :: w :: ws) :=
    dropWhile_cons_neg (digitOk_not_space (h1 d (by simp)))
  have e2 : List.takeWhile Char.isDigit (d :: (ds' ++ '-' :: w :: ws)) = d :: ds' := by
    rw [← List.cons_append, takeWhile_append_all hdig1,
      takeWhile_cons_neg (by decide : Char.isDigit '-' = false), List.append_nil]
  have e3 : List.dropWhile Char.isDigit (d :: (ds' ++ '-' :: w :: ws)) = '-' :: w :: ws := by
    rw [← List.cons_append, dropWhile_append_all hdig1,
      dropWhile_cons_neg (by decide : Char.isDigit '-' = false)]
  simp only [restMatch, List.cons_append]
  rw [if_pos (by decide)]
  simp only [e1, e2, e3, List.isEmpty_cons, Bool.false_eq_true, if_false,
    dashPart_digits h3]
  rfl

/-- After skipping spaces, a good tail (with anything appended) starts with a
letter. -/
theorem dropWhile_space_letter {b : List Char} (t : List Char)
    (hall : ∀ c ∈ b, goodTailChar c = true) (hany : b.any letterChar = true) :
    ∃ x rest, (b ++ t).dropWhile pyIsSpace = x :: rest ∧ letterChar x = true := by
  induction b with
  | nil => simp at hany
  | cons c b' ih =>
    by_cases hl : letterChar c = true
    · refine ⟨c, b' ++ t, ?_, hl⟩
      rw [List.cons_append, dropWhile_cons_neg (letterChar_not_space hl)]
    · have hc := hall c (by simp)
      have hsp : c = ' ' := by
        simp only [goodTailChar, Bool.or_eq_true, decide_eq_true_eq] at hc
        rcases hc with hc | hc
        · exact absurd hc hl
        · exact hc
      subst hsp
      have hany2 : b'.any letterChar = true := by
        simp only [List.any_cons, letterChar_space, Bool.false_or] at hany
        exact hany
      obtain ⟨x, rest, hx, hlx⟩ := ih (fun z hz => hall z (by simp [hz])) hany2
      refine ⟨x, rest, ?_, hlx⟩
      rw [List.cons_append, List.dropWhile_cons_of_pos (by decide), hx]

/-- `restMatch` fails on any nonempty suffix of a good tail (with anything
appended): the pattern requires whitespace and then a digit, but the suffix
yields a letter there. -/
theorem restMatch_fail_good {b : List Char} (t : List Char)
    (hall : ∀ c ∈ b, goodTailChar c = true) (hany : b.any letterChar = true) :
    restMatch (b ++ t) = none := by
  match b, hany with
  | c :: b', hany =>
    by_cases hl : letterChar c = true
    · rw [List.cons_append]
      show restMatch (c :: (b' ++ t)) = none
      simp only [restMatch]
      rw [if_neg (by simp [letterChar_not_space hl])]
    · have hc := hall c (by simp)
      have hsp : c = ' ' := by
        simp only [goodTailChar, Bool.or_eq_true, decide_eq_true_eq] at hc
        rcases hc with hc | hc
        · exact absurd hc hl
        · exact hc
      subst hsp
      have hany2 : b'.any letterChar = true := by
        simp only [List.any_cons, letterChar_space, Bool.false_or] at hany
        exact hany
      obtain ⟨x, rest, hx, hlx⟩ :=
        dropWhile_space_letter t (fun z hz => hall z (by simp [hz])) hany2
      rw [List.cons_append]
      show restMatch (' ' :: (b' ++ t)) = none
      simp only [restMatch]
      rw [if_pos (by decide)]
      simp only [hx, takeWhile_cons_neg (letterChar_not_digit hlx), List.isEmpty_nil]
      rfl

/-- The lazy tail `[A-Za-z .]+?`: started on a good tail followed by a
passage tail on which `restMatch` succeeds, it captures exactly the good
tail (shortest-first extension; every interior split fails). -/
theorem lazyBookGen_good {g : List Char × Option (List Char) × Option (List Char) × Option (List Char)}
    {tail : List Char} (hrm : restMatch tail = some g) :
    ∀ ns (a : Char) consumed, (∀ c ∈ ns ++ [a], goodTailChar c = true) →
      letterChar a = true →
      lazyBookGen restMatch consumed ((ns ++ [a]) ++ tail) =
        some (consumed ++ (ns ++ [a]), g) := by
  intro ns
  induction ns with
  | nil =>
    intro a consumed hall hla
    rw [show (([] ++ [a]) ++ tail : List Char) = a :: tail by simp]
    simp only [lazyBookGen]
    rw [if_pos (goodTailChar_bookTail (hall a (by simp)))]
    rw [hrm]
    simp
  | cons c ns' ih =>
    intro a consumed hall hla
    have hfail : restMatch ((ns' ++ [a]) ++ tail) = none := by
      refine restMatch_fail_good tail (fun z hz => hall z (by simp [hz])) ?_
      simp only [List.any_append, List.any_cons, List.any_nil, Bool.or_false,
        Bool.or_eq_true]
      exact Or.inr hla
    rw [show ((c :: ns' ++ [a]) ++ tail : List Char) = c :: ((ns' ++ [a]) ++ tail) by simp]
    simp only [lazyBookGen]
    rw [if_pos (goodTailChar_bookTail (hall c (by simp)))]
    rw [hfail]
    rw [ih a (consumed ++ [c]) (fun z hz => hall z (by simp [hz])) hla]
    simp

theorem nameSplit_decomp {name h nrest : List Char}
    (hs : nameSplit name = some (h, nrest)) : name = h ++ nrest := by
  match name with
  | [] => simp [nameSplit] at hs
  | c :: rest =>
    simp only [nameSplit] at hs
    split at hs
    next hc =>
      split at hs
      next d r3 heq =>
        split at hs
        next hd =>
          obtain ⟨rfl, rfl⟩ : c :: (rest.takeWhile pyIsSpace ++ [d]) = h ∧ r3 = nrest := by
            simpa using hs
          have hrest := List.takeWhile_append_dropWhile pyIsSpace rest
          rw [heq] at hrest
          have hra : (c :: (List.takeWhile pyIsSpace rest ++ [d])) ++ r3
              = c :: (List.takeWhile pyIsSpace rest ++ d :: r3) := by simp
          rw [hra, hrest]
        next hd => simp at hs
      next heq => simp at hs
    next hc =>
      split at hs
      next ha =>
        obtain ⟨rfl, rfl⟩ : [c] = h ∧ rest = nrest := by simpa using hs
        simp
      next ha => simp at hs

theorem bookHead_extend {name h nrest : List Char}
    (hs : nameSplit name = some (h, nrest)) (t : List Char) :
    bookHead (name ++ t) = some (h, nrest ++ t) := by
  match name with
  | [] => simp [nameSplit] at hs
  | c :: rest =>
    simp only [nameSplit] at hs
    rw [List.cons_append]
    split at hs
    next hc =>
      split at hs
      next d r3 heq =>
        split at hs
        next hd =>
          obtain ⟨rfl, rfl⟩ : c :: (rest.takeWhile pyIsSpace ++ [d]) = h ∧ r3 = nrest := by
            simpa using hs
          obtain ⟨hdw, htw⟩ := scan_append_of_dropWhile_cons heq t
          show bookHead (c :: (rest ++ t)) = _
          simp only [bookHead]
          rw [if_pos hc, hdw]
          simp only [htw]
          rw [if_pos hd]
        next hd => simp at hs
      next heq => simp at hs
    next hc =>
      split at hs
      next ha =>
        obtain ⟨rfl, rfl⟩ : [c] = h ∧ rest = nrest := by simpa using hs
        show bookHead (c :: (rest ++ t)) = _
        simp only [bookHead]
        rw [if_neg hc, if_pos ha]
      next ha => simp at hs

/-- The central matcher lemma: on a good book phrase followed by a tail that
`restMatch` accepts, `PASSAGE_RE` matches with the phrase as the book capture
and the tail's groups. -/
theorem matchPassageRE_name {name tail : List Char}
    {g : List Char × Option (List Char) × Option (List Char) × Option (List Char)}
    (hgb : goodBook name = true) (hrm : restMatch tail = some g) :
    matchPassageRE (name ++ tail) = some ⟨name, g.1, g.2.1, g.2.2.1, g.2.2.2⟩ := by
  obtain ⟨gc1, gv1, gc2, gv2⟩ := g
  unfold goodBook at hgb
  split at hgb
  case h_2 => simp at hgb
  case h_1 hh nrest heq =>
    simp only [Bool.and_eq_true, Bool.not_eq_true', List.isEmpty_eq_false] at hgb
    obtain ⟨⟨⟨⟨hhead, hdash⟩, hne⟩, hall⟩, hlast⟩ := hgb
    have hdecomp := nameSplit_decomp heq
    have hnn : name ≠ [] := by
      rw [hdecomp]
      simp [hne]
    obtain ⟨c0, rest0, hname⟩ := List.exists_cons_of_ne_nil hnn
    have hc0 : pyIsSpace c0 = false := by
      rw [hname] at hhead
      simpa using hhead
    rcases List.eq_nil_or_concat nrest with rfl | ⟨ns, a, rfl⟩
    · exact absurd rfl hne
    · simp only [List.concat_eq_append] at heq hlast hall hne hdecomp
      have hla : letterChar a = true := by
        rw [List.getLastD_concat] at hlast
        exact hlast
      have hallm : ∀ c ∈ ns ++ [a], goodTailChar c = true := by
        intro c hc
        exact List.all_eq_true.mp hall c hc
      have hdw : (name ++ tail).dropWhile pyIsSpace = name ++ tail := by
        rw [hname, List.cons_append]
        exact dropWhile_cons_neg hc0
      have hbh := bookHead_extend heq tail
      have hlb := lazyBookGen_good hrm ns a hh hallm hla
      simp only [matchPassageRE, hdw, hbh, Option.some_bind, hlb, Option.map_some']
      rw [hdecomp]

/-- `str.strip()` leaves a string untouched when neither end is whitespace. -/
theorem pyStrip_eq_self {l : List Char} (hne : l ≠ [])
    (hh : pyIsSpace (l.headD 'x') = false) (hl : pyIsSpace (l.getLastD 'x') = false) :
    pyStrip l = l := by
  rcases List.eq_nil_or_concat l with rfl | ⟨L, b, rfl⟩
  · exact absurd rfl hne
  · simp only [List.concat_eq_append] at hh hl ⊢
    rw [List.getLastD_concat] at hl
    unfold pyStrip
    have h1 : (L ++ [b]).dropWhile pyIsSpace = L ++ [b] := by
      rcases L with _ | ⟨c0, L'⟩
      · exact dropWhile_cons_neg (by simpa using hl)
      · rw [List.cons_append]
        exact dropWhile_cons_neg (by simpa using hh)
    rw [h1]
    rw [show (L ++ [b]).reverse = b :: L.reverse by simp]
    rw [dropWhile_cons_neg hl]
    simp

set_option maxRecDepth 8000 in
set_option maxHeartbeats 1000000 in
theorem bookFactsCheckOn_c1 : bookFactsCheckOn 0 11 = true := by decide

set_option maxRecDepth 8000 in
set_option maxHeartbeats 1000000 in
theorem bookFactsCheckOn_c2 : bookFactsCheckOn 11 11 = true := by decide

set_option maxRecDepth 8000 in
set_option maxHeartbeats 1000000 in
theorem bookFactsCheckOn_c3 : bookFactsCheckOn 22 11 = true := by decide

set_option maxRecDepth 8000 in
set_option maxHeartbeats 1000000 in
theorem bookFactsCheckOn_c4 : bookFactsCheckOn 33 11 = true := by decide

set_option maxRecDepth 8000 in
set_option maxHeartbeats 1000000 in
theorem bookFactsCheckOn_c5 : bookFactsCheckOn 44 11 = true := by decide

set_option maxRecDepth 8000 in
set_option maxHeartbeats 1000000 in
theorem bookFactsCheckOn_c6 : bookFactsCheckOn 55 11 = true := by decide

theorem book_facts {i : Nat} (hi : i < BOOKS.length) :
    goodBook (BOOKS[i].2.1.data) = true ∧
      match_book BOOKS[i].2.1 = some ((i : Int) + 1, BOOKS[i].1, BOOKS[i].2.1) := by
  have hfrom : ∀ lo n, bookFactsCheckOn lo n = true → i ∈ List.range' lo n →
      goodBook (BOOKS[i].2.1.data) = true ∧
        match_book BOOKS[i].2.1 = some ((i : Int) + 1, BOOKS[i].1, BOOKS[i].2.1) := by
    intro lo n hall hmem
    have hb := List.all_eq_true.mp hall i hmem
    rw [List.getElem?_eq_getElem hi] at hb
    simp only [Bool.and_eq_true, decide_eq_true_eq] at hb
    exact hb
  have h66 : i < 66 := by
    have hlen : BOOKS.length = 66 := by rfl
    omega
  rcases Nat.lt_or_ge i 11 with h | h
  · exact hfrom 0 11 bookFactsCheckOn_c1 (by rw [List.mem_range'_1]; omega)
  rcases Nat.lt_or_ge i 22 with h2 | h2
  · exact hfrom 11 11 bookFactsCheckOn_c2 (by rw [List.mem_range'_1]; omega)
  rcases Nat.lt_or_ge i 33 with h3 | h3
  · exact hfrom 22 11 bookFactsCheckOn_c3 (by rw [List.mem_range'_1]; omega)
  rcases Nat.lt_or_ge i 44 with h4 | h4
  · exact hfrom 33 11 bookFactsCheckOn_c4 (by rw [List.mem_range'_1]; omega)
  rcases Nat.lt_or_ge i 55 with h5 | h5
  · exact hfrom 44 11 bookFactsCheckOn_c5 (by rw [List.mem_range'_1]; omega)
  exact hfrom 55 11 bookFactsCheckOn_c6 (by rw [List.mem_range'_1]; omega)

/-! ## `parse_passage` tail-processing on the four canonical group shapes -/

theorem parseWithGroups_chapter {raw bk dsC : List Char} {b : Int × String × String}
    {strict : Bool} :
    parseWithGroups raw ⟨bk, dsC, none, none, none⟩ b strict =
      .ok ⟨b.1, b.2.1, b.2.2, atoi dsC, none, atoi dsC, none⟩ := by
  simp [parseWithGroups]

theorem parseWithGroups_verse {raw bk dsC dsV : List Char} {b : Int × String × String}
    {strict : Bool} (hnd : ¬ '-' ∈ raw) :
    parseWithGroups raw ⟨bk, dsC, some dsV, none, none⟩ b strict =
      .ok ⟨b.1, b.2.1, b.2.2, atoi dsC, some (atoi dsV), atoi dsC, some (atoi dsV)⟩ := by
  simp [parseWithGroups, hnd]

theorem parseWithGroups_verse_range {raw bk dsC dsV dsW : List Char}
    {b : Int × String × String} {strict : Bool}
    (hv : ¬atoi dsW < atoi dsV) :
    parseWithGroups raw ⟨bk, dsC, some dsV, none, some dsW⟩ b strict =
      .ok ⟨b.1, b.2.1, b.2.2, atoi dsC, some (atoi dsV), atoi dsC, some (atoi dsW)⟩ := by
  simp [parseWithGroups, hv]

theorem parseWithGroups_cross {raw bk dsC dsV dsC2 dsW : List Char}
    {b : Int × String × String} {strict : Bool}
    (hc : atoi dsC < atoi dsC2) :
    parseWithGroups raw ⟨bk, dsC, some dsV, some dsC2, some dsW⟩ b strict =
      .ok ⟨b.1, b.2.1, b.2.2, atoi dsC, some (atoi dsV), atoi dsC2, some (atoi dsW)⟩ := by
  have h1 : ¬atoi dsC2 < atoi dsC := by omega
  have h2 : ¬atoi dsC = atoi dsC2 := by omega
  simp [parseWithGroups, h1, h2]

theorem goodBook_facts {name : List Char} (h : goodBook name = true) :
    name ≠ [] ∧ pyIsSpace (name.headD 'x') = false ∧ name.contains '-' = false := by
  unfold goodBook at h
  split at h
  next hh nrest heq =>
    simp only [Bool.and_eq_true, Bool.not_eq_true'] at h
    refine ⟨?_, h.1.1.1.1, h.1.1.1.2⟩
    intro hnil
    rw [hnil] at heq
    simp [nameSplit] at heq
  next => simp at h

theorem intStr_data {n : Int} (h : 0 ≤ n) : (intStr n).data = natDigits n.toNat := by
  unfold intStr
  rw [if_neg (by omega)]

theorem getLastD_append_right {l1 l2 : List Char} (h : l2 ≠ []) (d : Char) :
    (l1 ++ l2).getLastD d = l2.getLastD d := by
  rcases List.eq_nil_or_concat l2 with rfl | ⟨L, b, rfl⟩
  · exact absurd rfl h
  · simp only [List.concat_eq_append, ← List.append_assoc]
    rw [List.getLastD_concat, List.getLastD_concat]

theorem getLastD_mem {l : List Char} (h : l ≠ []) (d : Char) : l.getLastD d ∈ l := by
  rcases List.eq_nil_or_concat l with rfl | ⟨L, b, rfl⟩
  · exact absurd rfl h
  · simp only [List.concat_eq_append]
    rw [List.getLastD_concat]
    simp

/-- Reduce `parse_passage` on `book-phrase ++ tail` to the group-processing
stage, given that the phrase resolves and the tail matches. -/
theorem parse_via_groups {txt bname : String} {b : Int × String × String}
    {tail c1 : List Char} {v1 c2 v2 : Option (List Char)}
    (hdata : txt.data = bname.data ++ tail)
    (hgood : goodBook bname.data = true)
    (hmb : match_book bname = some b)
    (hrm : restMatch tail = some (c1, v1, c2, v2))
    (hte : tail ≠ [])
    (htl : pyIsSpace (tail.getLastD 'x') = false)
    (strict : Bool) :
    parse_passage txt strict =
      parseWithGroups (bname.data ++ tail) ⟨bname.data, c1, v1, c2, v2⟩
        b strict := by
  obtain ⟨hnn, hhead, hdash⟩ := goodBook_facts hgood
  have hstrip : pyStrip (bname.data ++ tail) = bname.data ++ tail := by
    refine pyStrip_eq_self (fun hx => hnn (List.append_eq_nil.mp hx).1) ?_ ?_
    · obtain ⟨c0, r0, hc0⟩ := List.exists_cons_of_ne_nil hnn
      rw [hc0]
      rw [hc0] at hhead
      simpa using hhead
    · rw [getLastD_append_right hte 'x']
      exact htl
  have hm := matchPassageRE_name hgood hrm
  have hmb1 : match_book ⟨bname.data⟩ = some b := hmb
  simp only [parse_passage, hdata, hstrip, hm, hmb1]

/-- Claim C1, amended: the parse/normalized-label round-trip holds for every
valid Passage that is not a chapter-only multi-chapter range. -/
theorem parse_roundtrip (p : Passage) (strict : Bool)
    (hval : p.valid = true)
    (hco : p.is_chapter_only = true → p.chapter_start = p.chapter_end) :
    parse_passage p.normalized_label strict = .ok p := by
  obtain ⟨bid, osis, bname, cs, vs, ce, ve⟩ := p
  simp only [Passage.valid, Bool.and_eq_true, decide_eq_true_eq] at hval
  obtain ⟨⟨⟨⟨hb1, hbook⟩, hcs1⟩, hcse⟩, hverse⟩ := hval
  split at hbook
  case h_2 => simp at hbook
  case h_1 b heq =>
    simp only [Bool.and_eq_true, decide_eq_true_eq] at hbook
    obtain ⟨rfl, rfl⟩ := hbook
    obtain ⟨hlt, hEq⟩ := List.getElem?_eq_some.mp heq
    obtain ⟨hgood, hmb0⟩ := book_facts hlt
    rw [hEq] at hgood hmb0
    have hbid : ((bid - 1).toNat : Int) + 1 = bid := by omega
    rw [hbid] at hmb0
    have hdsC := natDigits_chars (n := cs.toNat)
    obtain ⟨d, ds', hconsC⟩ := List.exists_cons_of_ne_nil (natDigits_ne_nil (n := cs.toNat))
    rw [hconsC] at hdsC
    have hatoiC : atoi (d :: ds') = cs := by
      rw [← hconsC, atoi_natDigits, Int.toNat_of_nonneg (by omega)]
    match vs, ve, hverse with
    | none, none, _ =>
      have hcc : cs = ce := hco (by simp [Passage.is_chapter_only])
      subst hcc
      have hlabel : (Passage.normalized_label ⟨bid, b.1, b.2.1, cs, none, cs, none⟩).data
          = b.2.1.data ++ ' ' :: (d :: ds') := by
        simp [Passage.normalized_label, Passage.is_chapter_only, intStr_data,
          (show (0 : Int) ≤ cs by omega), hconsC,
          show (" " : String).data = [' '] from by decide]
      rw [parse_via_groups hlabel hgood hmb0 (restMatch_chapter hdsC) (by simp) ?hlast strict]
      case hlast =>
        have hstep : ((' ' :: (d :: ds') : List Char)).getLastD 'x'
            = (d :: ds').getLastD ' ' := rfl
        rw [hstep]
        exact digitOk_not_space (hdsC _ (getLastD_mem (by simp) ' '))
      rw [parseWithGroups_chapter, hatoiC]
    | some a, some b2, hverse =>
      simp only [Bool.and_eq_true, decide_eq_true_eq, Bool.or_eq_true,
        Bool.not_eq_true', decide_eq_false_iff_not] at hverse
      obtain ⟨⟨ha1, hb21⟩, hor⟩ := hverse
      have hdsV := natDigits_chars (n := a.toNat)
      obtain ⟨e, es, hconsV⟩ := List.exists_cons_of_ne_nil (natDigits_ne_nil (n := a.toNat))
      rw [hconsV] at hdsV
      have hatoiV : atoi (e :: es) = a := by
        rw [← hconsV, atoi_natDigits, Int.toNat_of_nonneg (by omega)]
      have hdsW := natDigits_chars (n := b2.toNat)
      obtain ⟨w, ws, hconsW⟩ := List.exists_cons_of_ne_nil (natDigits_ne_nil (n := b2.toNat))
      rw [hconsW] at hdsW
      have hatoiW : atoi (w :: ws) = b2 := by
        rw [← hconsW, atoi_natDigits, Int.toNat_of_nonneg (by omega)]
      by_cases hcc : cs = ce
      · subst hcc
        have hle : a ≤ b2 := by
          rcases hor with hor | hor
          · exact absurd rfl hor
          · exact hor
        by_cases hab : a = b2
        · subst hab
          have hlabel : (Passage.normalized_label ⟨bid, b.1, b.2.1, cs, some a, cs, some a⟩).data
              = b.2.1.data ++ ' ' :: ((d :: ds') ++ ':' :: (e :: es)) := by
            simp [Passage.normalized_label, Passage.is_chapter_only, optIntStr, intStr_data,
              (show (0 : Int) ≤ cs by omega), (show (0 : Int) ≤ a by omega),
              hconsC, hconsV,
              show (" " : String).data = [' '] from by decide,
              show (":" : String).data = [':'] from by decide]
          rw [parse_via_groups hlabel hgood hmb0 (restMatch_verse hdsC hdsV)
            (by simp) ?hlastB strict]
          case hlastB =>
            rw [show ((' ' :: ((d :: ds') ++ ':' :: (e :: es)) : List Char)).getLastD 'x'
                = ((d :: ds') ++ ':' :: (e :: es)).getLastD ' ' from rfl]
            rw [getLastD_append_right (by simp) ' ']
            rw [show ((':' :: (e :: es) : List Char)).getLastD ' '
                = (e :: es).getLastD ':' from rfl]
            exact digitOk_not_space (hdsV _ (getLastD_mem (by simp) ':'))
          rw [parseWithGroups_verse ?hnd, hatoiC, hatoiV]
          case hnd =>
            obtain ⟨hnn, hhead, hdash⟩ := goodBook_facts hgood
            have hdashm : ¬ '-' ∈ b.2.1.data := by simpa using hdash
            intro hmem
            rcases List.mem_append.mp hmem with hmem | hmem
            · exact hdashm hmem
            · simp only [List.mem_cons, List.mem_append] at hmem
              rcases hmem with hmem | (hmem | (hmem | hmem))
              · simp at hmem
              · exact digitOk_ne_dash (hdsC _ (List.mem_cons.mpr hmem)) rfl
              · simp at hmem
              · exact digitOk_ne_dash (hdsV _ (List.mem_cons.mpr hmem)) rfl
        · have hlabel : (Passage.normalized_label ⟨bid, b.1, b.2.1, cs, some a, cs, some b2⟩).data
              = b.2.1.data ++ ' ' :: ((d :: ds') ++ ':' :: ((e :: es) ++ '-' :: (w :: ws))) := by
            simp [Passage.normalized_label, Passage.is_chapter_only, optIntStr, intStr_data,
              (show (0 : Int) ≤ cs by omega), (show (0 : Int) ≤ a by omega),
              (show (0 : Int) ≤ b2 by omega), hconsC, hconsV, hconsW, hab,
              show (" " : String).data = [' '] from by decide,
              show (":" : String).data = [':'] from by decide,
              show ("-" : String).data = ['-'] from by decide]
          rw [parse_via_groups hlabel hgood hmb0 (restMatch_verse_range hdsC hdsV hdsW)
            (by simp) ?hlastC strict]
          case hlastC =>
            rw [show ((' ' :: ((d :: ds') ++ ':' :: ((e :: es) ++ '-' :: (w :: ws))) :
                List Char)).getLastD 'x'
                = ((d :: ds') ++ ':' :: ((e :: es) ++ '-' :: (w :: ws))).getLastD ' ' from rfl]
            rw [getLastD_append_right (by simp) ' ']
            rw [show ((':' :: ((e :: es) ++ '-' :: (w :: ws)) : List Char)).getLastD ' '
                = ((e :: es) ++ '-' :: (w :: ws)).getLastD ':' from rfl]
            rw [getLastD_append_right (by simp) ':']
            rw [show (('-' :: (w :: ws) : List Char)).getLastD ':'
                = (w :: ws).getLastD '-' from rfl]
            exact digitOk_not_space (hdsW _ (getLastD_mem (by simp) '-'))
          rw [parseWithGroups_verse_range (by rw [hatoiV, hatoiW]; omega), hatoiC, hatoiV, hatoiW]
      · have hlt2 : cs < ce := by omega
        have hdsC2 := natDigits_chars (n := ce.toNat)
        obtain ⟨f, fs, hconsC2⟩ := List.exists_cons_of_ne_nil (natDigits_ne_nil (n := ce.toNat))
        rw [hconsC2] at hdsC2
        have hatoiC2 : atoi (f :: fs) = ce := by
          rw [← hconsC2, atoi_natDigits, Int.toNat_of_nonneg (by omega)]
        have hlabel : (Passage.normalized_label ⟨bid, b.1, b.2.1, cs, some a, ce, some b2⟩).data
            = b.2.1.data ++ ' ' ::
              ((d :: ds') ++ ':' :: ((e :: es) ++ '-' :: ((f :: fs) ++ ':' :: (w :: ws)))) := by
          simp [Passage.normalized_label, Passage.is_chapter_only, optIntStr, intStr_data,
            (show (0 : Int) ≤ cs by omega), (show (0 : Int) ≤ a by omega),
            (show (0 : Int) ≤ ce by omega), (show (0 : Int) ≤ b2 by omega),
            hconsC, hconsV, hconsC2, hconsW, hcc,
            show (" " : String).data = [' '] from by decide,
            show (":" : String).data = [':'] from by decide,
            show ("-" : String).data = ['-'] from by decide]
        rw [parse_via_groups hlabel hgood hmb0
          (restMatch_cross_chapter hdsC hdsV hdsC2 hdsW) (by simp) ?hlastD strict]
        case hlastD =>
          rw [show ((' ' :: ((d :: ds') ++ ':' ::
              ((e :: es) ++ '-' :: ((f :: fs) ++ ':' :: (w :: ws)))) : List Char)).getLastD 'x'
              = ((d :: ds') ++ ':' ::
                ((e :: es) ++ '-' :: ((f :: fs) ++ ':' :: (w :: ws)))).getLastD ' ' from rfl]
          rw [getLastD_append_right (by simp) ' ']
          rw [show ((':' :: ((e :: es) ++ '-' :: ((f :: fs) ++ ':' :: (w :: ws))) :
              List Char)).getLastD ' '
              = ((e :: es) ++ '-' :: ((f :: fs) ++ ':' :: (w :: ws))).getLastD ':' from rfl]
          rw [getLastD_append_right (by simp) ':']
          rw [show (('-' :: ((f :: fs) ++ ':' :: (w :: ws)) : List Char)).getLastD ':'
              = ((f :: fs) ++ ':' :: (w :: ws)).getLastD '-' from rfl]
          rw [getLastD_append_right (by simp) '-']
          rw [show ((':' :: (w :: ws) : List Char)).getLastD '-'
              = (w :: ws).getLastD ':' from rfl]
          exact digitOk_not_space (hdsW _ (getLastD_mem (by simp) ':'))
        rw [parseWithGroups_cross (by rw [hatoiC, hatoiC2]; omega), hatoiC, hatoiV,
          hatoiC2, hatoiW]

/-! ## Claim C1 (round-trip) -/

/-- C1 witness: the amended round-trip instantiated at the single verse
Romans 8:28. -/
theorem parse_roundtrip_witness :
    romansQuery.valid = true ∧
    parse_passage romansQuery.normalized_label false = .ok romansQuery :=
  ⟨by decide, parse_roundtrip romansQuery false (by decide) (by decide)⟩

/-- C1 counterexample: the valid chapter-only range Psalms 1-2 does not
round-trip — non-strict parsing of its label loses the upper chapter, strict
parsing raises the ambiguity error. -/
theorem parse_roundtrip_counterexample :
    Passage.valid ⟨19, "Ps", "Psalms", 1, none, 2, none⟩ = true ∧
    Passage.normalized_label ⟨19, "Ps", "Psalms", 1, none, 2, none⟩ = "Psalms 1-2" ∧
    parse_passage "Psalms 1-2" false = .ok ⟨19, "Ps", "Psalms", 1, none, 1, none⟩ ∧
    parse_passage "Psalms 1-2" true = .error .ambiguous ∧
    ¬parse_passage "Psalms 1-2" false = .ok ⟨19, "Ps", "Psalms", 1, none, 2, none⟩ ∧
    ¬parse_passage "Psalms 1-2" true = .ok ⟨19, "Ps", "Psalms", 1, none, 2, none⟩ := by
  decide

/-! ## Claim C2 (chapter-only range parsing) -/

/-- C2 counterexample: "Romans 8-9" (a known book, chapters 9 ≥ 8 ≥ 1, no
colons) does not parse to the chapter-only range 8..9 in either mode.
`PASSAGE_RE` itself captures the second chapter as a verse (`v2`), so the
dedicated chapter-range fallback at `common_passages.py:142` is unreachable:
strict mode raises the ambiguity error and non-strict mode returns only the
first chapter. -/
theorem chapter_range_counterexample :
    parse_passage "Romans 8-9" true = .error .ambiguous ∧
    parse_passage "Romans 8-9" false = .ok ⟨45, "Rom", "Romans", 8, none, 8, none⟩ ∧
    ¬parse_passage "Romans 8-9" false = .ok ⟨45, "Rom", "Romans", 8, none, 9, none⟩ ∧
    ¬parse_passage "Romans 8-9" true = .ok ⟨45, "Rom", "Romans", 8, none, 9, none⟩ := by
  decide

/-! ## Claim C3 (alias normalization) -/

/-- C3: `_normalize_book_phrase` strips before replacing periods, so an
abbreviation with a trailing period normalizes to a key with a trailing
space and the lookup misses; the same alias without the period resolves. -/
theorem alias_period_code_eval :
    match_book "1 Cor." = none ∧
    normalize_book_phrase "1 Cor." = "1 cor " ∧
    match_book "1 Cor" = some (46, "1Cor", "1 Corinthians") ∧
    BOOK_BY_ALIAS "1 cor" = some (46, "1Cor", "1 Corinthians") ∧
    match_book "II Cor" = some (47, "2Cor", "2 Corinthians") := by decide

/-! ## Claim C4 (InvalidRange on reversed chapter ranges) -/

/-- C4: a verse-bearing reference with the ending chapter before the starting
chapter does raise the end-before-start error, but the chapter-only range
form does not: non-strict parsing of "Psalms 2-1" silently returns Psalms 2
and strict parsing raises the ambiguity error instead (the fallback branch
holding the intended check is unreachable). -/
theorem invalid_chapter_range_code_eval :
    Passage.normalized_label ⟨19, "Ps", "Psalms", 2, none, 1, none⟩ = "Psalms 2-1" ∧
    parse_passage "Psalms 2:1-1:5" false = .error .chapterOrder ∧
    parse_passage "Psalms 2:1-1:5" true = .error .chapterOrder ∧
    parse_passage "Psalms 2-1" false = .ok ⟨19, "Ps", "Psalms", 2, none, 2, none⟩ ∧
    parse_passage "Psalms 2-1" true = .error .ambiguous ∧
    ¬parse_passage "Psalms 2-1" false = .error .chapterOrder ∧
    ¬parse_passage "Psalms 2-1" true = .error .chapterOrder := by decide

/-! ## Claim C5 (parser output invariants) -/

/-- C5: the parser can return a Passage violating the chapter invariant —
non-strict parsing of "John 3-2:5" yields chapter_start 3, chapter_end 2
with no validation (the `Passage` constructor performs none, so the
`except ValueError` guards around construction can never fire). -/
theorem parser_invariant_code_eval :
    parse_passage "John 3-2:5" false = .ok ⟨43, "John", "John", 3, none, 2, none⟩ ∧
    (⟨43, "John", "John", 3, none, 2, none⟩ : Passage).chapter_end
      < (⟨43, "John", "John", 3, none, 2, none⟩ : Passage).chapter_start := by decide

theorem parseWithGroups_chapter_dash {raw bk dsC dsW : List Char}
    {b : Int × String × String} (hd : '-' ∈ raw) :
    parseWithGroups raw ⟨bk, dsC, none, none, some dsW⟩ b true = .error .ambiguous ∧
    parseWithGroups raw ⟨bk, dsC, none, none, some dsW⟩ b false =
      .ok ⟨b.1, b.2.1, b.2.2, atoi dsC, none, atoi dsC, none⟩ := by
  constructor <;> simp [parseWithGroups, hd]

set_option maxRecDepth 8000 in
set_option maxHeartbeats 4000000 in
theorem aliasFactsCheck_true : aliasFactsCheck = true := by decide

/-- Claim C9: for every known book alias `B` and chapter/verse numbers
`C, V ≥ 1`, parsing `"B C-V"` in strict mode raises the dedicated ambiguity
error, while non-strict mode returns a best-effort Passage (the resolved
book at chapter `C` only). -/
theorem ambiguous_dash_behavior :
    ∀ kv ∈ aliasAssignments, ∀ C V : Int, 1 ≤ C → 1 ≤ V →
      parse_passage (chapterDashVerse kv.1 C V) true = .error .ambiguous ∧
      ∃ b, match_book kv.1 = some b ∧
        parse_passage (chapterDashVerse kv.1 C V) false =
          .ok ⟨b.1, b.2.1, b.2.2, C, none, C, none⟩ := by
  intro kv hkv C V hC hV
  have hfacts := List.all_eq_true.mp aliasFactsCheck_true kv hkv
  simp only [Bool.and_eq_true, Bool.or_eq_true, decide_eq_true_eq,
    List.any_eq_true] at hfacts
  obtain ⟨hgood, hex⟩ := hfacts
  have hexq : ∃ q ∈ aliasAssignments, q.1 = normalize_book_phrase kv.1 := by
    rcases hex with hfix | ⟨q, hq, hq1⟩
    · exact ⟨kv, hkv, by rw [hfix]⟩
    · exact ⟨q, hq, by simpa using hq1⟩
  obtain ⟨q, hq, hq1⟩ := hexq
  have hmbs : (match_book kv.1).isSome = true := by
    have hfind : (aliasAssignments.reverse.find?
        (fun r => r.1 = normalize_book_phrase kv.1)).isSome = true := by
      rw [List.find?_isSome]
      exact ⟨q, List.mem_reverse.mpr hq, by simp [hq1]⟩
    simp only [match_book, BOOK_BY_ALIAS, Option.isSome_map']
    exact hfind
  obtain ⟨b, hmb⟩ := Option.isSome_iff_exists.mp hmbs
  have hdsC := natDigits_chars (n := C.toNat)
  obtain ⟨d, ds', hconsC⟩ := List.exists_cons_of_ne_nil (natDigits_ne_nil (n := C.toNat))
  rw [hconsC] at hdsC
  have hatoiC : atoi (d :: ds') = C := by
    rw [← hconsC, atoi_natDigits, Int.toNat_of_nonneg (by omega)]
  have hdsW := natDigits_chars (n := V.toNat)
  obtain ⟨w, ws, hconsW⟩ := List.exists_cons_of_ne_nil (natDigits_ne_nil (n := V.toNat))
  rw [hconsW] at hdsW
  have hlabel : (chapterDashVerse kv.1 C V).data
      = kv.1.data ++ ' ' :: ((d :: ds') ++ '-' :: (w :: ws)) := by
    simp [chapterDashVerse, intStr_data, (show (0 : Int) ≤ C by omega),
      (show (0 : Int) ≤ V by omega), hconsC, hconsW,
      show (" " : String).data = [' '] from by decide,
      show ("-" : String).data = ['-'] from by decide]
  have hpv := parse_via_groups hlabel hgood hmb
    (restMatch_chapter_dash hdsC hdsW) (by simp) ?hlast
  case hlast =>
    rw [show ((' ' :: ((d :: ds') ++ '-' :: (w :: ws)) : List Char)).getLastD 'x'
        = ((d :: ds') ++ '-' :: (w :: ws)).getLastD ' ' from rfl]
    rw [getLastD_append_right (by simp) ' ']
    rw [show (('-' :: (w :: ws) : List Char)).getLastD ' '
        = (w :: ws).getLastD '-' from rfl]
    exact digitOk_not_space (hdsW _ (getLastD_mem (by simp) '-'))
  have hdash : '-' ∈ kv.1.data ++ ' ' :: ((d :: ds') ++ '-' :: (w :: ws)) := by
    simp
  obtain ⟨hpg1, hpg2⟩ := @parseWithGroups_chapter_dash
    (kv.1.data ++ ' ' :: ((d :: ds') ++ '-' :: (w :: ws)))
    kv.1.data (d :: ds') (w :: ws) b hdash
  refine ⟨?_, b, hmb, ?_⟩
  · rw [hpv true, hpg1]
  · rw [hpv false, hpg2, hatoiC]

/-- C9 witness: the ambiguity behaviour at the registry alias "genesis" with
chapter 3 and verse 16. -/
theorem ambiguous_dash_behavior_witness :
    ("genesis", ((1 : Int), "Gen", "Genesis")) ∈ aliasAssignments ∧
    (1 : Int) ≤ 3 ∧ (1 : Int) ≤ 16 ∧
    (parse_passage (chapterDashVerse "genesis" 3 16) true = .error .ambiguous ∧
      ∃ b, match_book "genesis" = some b ∧
        parse_passage (chapterDashVerse "genesis" 3 16) false =
          .ok ⟨b.1, b.2.1, b.2.2, 3, none, 3, none⟩) :=
  ⟨by decide, by decide, by decide,
    ambiguous_dash_behavior ("genesis", ((1 : Int), "Gen", "Genesis")) (by decide)
      3 16 (by decide) (by decide)⟩

/-! ## Claim C2, amended (what the chapter-dash-chapter form really yields) -/

/-- Claim C2, amended: for every registry alias `B` and chapters
`1 ≤ C ≤ C2`, the input `"B C-C2"` (no colons) is never parsed as a
chapter-only range ending at `C2`: `PASSAGE_RE` captures the second number
as a verse, so strict mode raises the ambiguity error and non-strict mode
returns the single-chapter Passage at `C` (both verses absent, chapter_end
is `C`, not `C2`). -/
theorem chapter_range_actual :
    ∀ kv ∈ aliasAssignments, ∀ C C2 : Int, 1 ≤ C → C ≤ C2 →
      parse_passage (chapterDashVerse kv.1 C C2) true = .error .ambiguous ∧
      ∃ b, match_book kv.1 = some b ∧
        parse_passage (chapterDashVerse kv.1 C C2) false =
          .ok ⟨b.1, b.2.1, b.2.2, C, none, C, none⟩ := by
  intro kv hkv C C2 hC hCC
  have hV : (1 : Int) ≤ C2 := le_trans hC hCC
  have hfacts := List.all_eq_true.mp aliasFactsCheck_true kv hkv
  simp only [Bool.and_eq_true, Bool.or_eq_true, decide_eq_true_eq,
    List.any_eq_true] at hfacts
  obtain ⟨hgood, hex⟩ := hfacts
  have hexq : ∃ q ∈ aliasAssignments, q.1 = normalize_book_phrase kv.1 := by
    rcases hex with hfix | ⟨q, hq, hq1⟩
    · exact ⟨kv, hkv, by rw [hfix]⟩
    · exact ⟨q, hq, by simpa using hq1⟩
  obtain ⟨q, hq, hq1⟩ := hexq
  have hmbs : (match_book kv.1).isSome = true := by
    have hfind : (aliasAssignments.reverse.find?
        (fun r => r.1 = normalize_book_phrase kv.1)).isSome = true := by
      rw [List.find?_isSome]
      exact ⟨q, List.mem_reverse.mpr hq, by simp [hq1]⟩
    simp only [match_book, BOOK_BY_ALIAS, Option.isSome_map']
    exact hfind
  obtain ⟨b, hmb⟩ := Option.isSome_iff_exists.mp hmbs
  have hdsC := natDigits_chars (n := C.toNat)
  obtain ⟨d, ds', hconsC⟩ := List.exists_cons_of_ne_nil (natDigits_ne_nil (n := C.toNat))
  rw [hconsC] at hdsC
  have hatoiC : atoi (d :: ds') = C := by
    rw [← hconsC, atoi_natDigits, Int.toNat_of_nonneg (by omega)]
  have hdsW := natDigits_chars (n := C2.toNat)
  obtain ⟨w, ws, hconsW⟩ := List.exists_cons_of_ne_nil (natDigits_ne_nil (n := C2.toNat))
  rw [hconsW] at hdsW
  have hlabel : (chapterDashVerse kv.1 C C2).data
      = kv.1.data ++ ' ' :: ((d :: ds') ++ '-' :: (w :: ws)) := by
    simp [chapterDashVerse, intStr_data, (show (0 : Int) ≤ C by omega),
      (show (0 : Int) ≤ C2 by omega), hconsC, hconsW,
      show (" " : String).data = [' '] from by decide,
      show ("-" : String).data = ['-'] from by decide]
  have hpv := parse_via_groups hlabel hgood hmb
    (restMatch_chapter_dash hdsC hdsW) (by simp) ?hlast
  case hlast =>
    rw [show ((' ' :: ((d :: ds') ++ '-' :: (w :: ws)) : List Char)).getLastD 'x'
        = ((d :: ds') ++ '-' :: (w :: ws)).getLastD ' ' from rfl]
    rw [getLastD_append_right (by simp) ' ']
    rw [show (('-' :: (w :: ws) : List Char)).getLastD ' '
        = (w :: ws).getLastD '-' from rfl]
    exact digitOk_not_space (hdsW _ (getLastD_mem (by simp) '-'))
  have hdash : '-' ∈ kv.1.data ++ ' ' :: ((d :: ds') ++ '-' :: (w :: ws)) := by
    simp
  obtain ⟨hpg1, hpg2⟩ := @parseWithGroups_chapter_dash
    (kv.1.data ++ ' ' :: ((d :: ds') ++ '-' :: (w :: ws)))
    kv.1.data (d :: ds') (w :: ws) b hdash
  refine ⟨?_, b, hmb, ?_⟩
  · rw [hpv true, hpg1]
  · rw [hpv false, hpg2, hatoiC]

/-- C2 witness: the amended behaviour at the registry alias "romans" with
chapters 8 and 9. -/
theorem chapter_range_actual_witness :
    ("romans", ((45 : Int), "Rom", "Romans")) ∈ aliasAssignments ∧
    (1 : Int) ≤ 8 ∧ (8 : Int) ≤ 9 ∧
    (parse_passage (chapterDashVerse "romans" 8 9) true = .error .ambiguous ∧
      ∃ b, match_book "romans" = some b ∧
        parse_passage (chapterDashVerse "romans" 8 9) false =
          .ok ⟨b.1, b.2.1, b.2.2, 8, none, 8, none⟩) :=
  ⟨by decide, by decide, by decide,
    chapter_range_actual ("romans", ((45 : Int), "Rom", "Romans")) (by decide)
      8 9 (by decide) (by decide)⟩

/-! ## Claim C6 (verse entries outrank chapter entries) -/

theorem pref_bonus_nonneg (prio : String → Option Int) (key : String) :
    0 ≤ pref_bonus prio key :=
  le_max_left 0 _

theorem pref_bonus_le (prio : String → Option Int) (key : String)
    (hpr : ∀ k r, prio k = some r → 0 ≤ r) : pref_bonus prio key ≤ 1/4 := by
  unfold pref_bonus
  have hr : 0 ≤ priority_rank prio key := by
    unfold priority_rank
    rcases hq : prio (pyLowerStr key) with _ | v
    · simp
    · simpa using hpr _ v hq
  have hm : (0 : Int) ≤ min (priority_rank prio key) 20 := by omega
  have h1 : (0 : ℚ) ≤ ((min (priority_rank prio key) 20 : Int) : ℚ) * (3/100) := by
    apply mul_nonneg
    · exact_mod_cast hm
    · norm_num
  apply max_le
  · norm_num
  · linarith

theorem len_bonus_nonneg (excerpt : String) : 0 ≤ len_bonus excerpt := by
  simp only [len_bonus]
  split
  · norm_num
  · split
    · norm_num
    · norm_num

theorem len_bonus_le (excerpt : String) : len_bonus excerpt ≤ 1/20 := by
  simp only [len_bonus]
  split
  · norm_num
  · split
    · norm_num
    · norm_num

/-- Claim C6: (i) in general, any verse-granularity row with a positive score
against a verse-precision query scores strictly above any chapter-granularity
row, for every commentator-priority map (with ranks ≥ 0, as specified:
0 = most preferred) and any excerpts; (ii) in the concrete seed of §8
(Romans 8 chapter entry and Romans 8:28 verse entry), querying
"Romans 8:28" returns the verse entry strictly before the chapter entry. -/
theorem verse_outranks_chapter :
    (∀ (p : Passage) (rowV rowC : EntryRow) (prio : String → Option Int),
      (∀ k r, prio k = some r → 0 ≤ r) →
      p.verse_start.isSome = true →
      rowV.granularity = "verse" →
      rowC.granularity = "chapter" →
      0 < score_row rowV p prio →
      score_row rowC p prio < score_row rowV p prio) ∧
    parse_passage "Romans 8:28" false = .ok romansQuery ∧
    (search_entries scenarioDB romansQuery prioHenry 5).map (fun r => r.granularity)
      = ["verse", "chapter"] := by
  refine ⟨?_, by decide, by with_unfolding_all decide⟩
  intro p rowV rowC prio hpr hvp hgv hgc hpos
  have hovC : verse_overlap_score p rowC = 1/5 := by
    simp [verse_overlap_score, hgc]
  have hgwC : granularity_weight rowC.granularity = 9/20 := by
    rw [hgc]
    with_unfolding_all decide
  have hgwV : granularity_weight rowV.granularity = 1 := by
    rw [hgv]
    with_unfolding_all decide
  have hC : score_row rowC p prio =
      9/20 + 1/5 + pref_bonus prio rowC.commentator_key + len_bonus rowC.excerpt := by
    simp only [score_row, hovC, hgwC]
    rw [if_neg]
    intro hx
    have := hx.1
    norm_num at this
  by_cases hov : verse_overlap_score p rowV ≤ 0
  · exfalso
    have h0 : score_row rowV p prio = 0 := by
      simp only [score_row]
      rw [if_pos]
      refine ⟨hov, fun hx => ?_⟩
      rw [hgv] at hx
      exact absurd hx.2 (by decide)
    rw [h0] at hpos
    exact lt_irrefl 0 hpos
  · have hV : score_row rowV p prio =
        1 + verse_overlap_score p rowV + pref_bonus prio rowV.commentator_key
          + len_bonus rowV.excerpt := by
      simp only [score_row, hgwV]
      rw [if_neg (fun hx => hov hx.1)]
    have hovV : 0 < verse_overlap_score p rowV := lt_of_not_ge hov
    have b1 := pref_bonus_le prio rowC.commentator_key hpr
    have b2 := len_bonus_le rowC.excerpt
    have b3 := pref_bonus_nonneg prio rowV.commentator_key
    have b4 := len_bonus_nonneg rowV.excerpt
    rw [hC, hV]
    linarith

/-- C6 witness: the inequality at the concrete seed rows and query. -/
theorem verse_outranks_chapter_witness :
    score_row (mkRow 1 1 "t" chapterEntry) romansQuery prioHenry
      < score_row (mkRow 2 1 "t" verseEntry) romansQuery prioHenry :=
  verse_outranks_chapter.1 romansQuery (mkRow 2 1 "t" verseEntry)
    (mkRow 1 1 "t" chapterEntry) prioHenry
    (fun k r h => by
      simp only [prioHenry] at h
      split at h
      · cases h
        omega
      · cases h)
    (by decide) (by decide) (by decide) (by with_unfolding_all decide)

theorem insertEntries_filter_ne {sid : Int} {now : String} :
    ∀ (rows : List NewEntry) (db : DB),
      (insertEntries db sid now rows).entries.filter (fun e => ¬e.source_id = sid)
        = db.entries.filter (fun e => ¬e.source_id = sid) := by
  intro rows
  induction rows with
  | nil => intro db; rfl
  | cons r rest ih =>
    intro db
    show (insertEntries _ sid now rest).entries.filter _ = _
    rw [ih]
    simp [mkRow]

theorem insertEntries_filter_eq {sid : Int} {now : String} :
    ∀ (rows : List NewEntry) (db : DB),
      ((insertEntries db sid now rows).entries.filter (fun e => e.source_id = sid)).map dropId
        = (db.entries.filter (fun e => e.source_id = sid)).map dropId
          ++ rows.map (fun r => mkRow 0 sid now r) := by
  intro rows
  induction rows with
  | nil => intro db; simp [insertEntries]
  | cons r rest ih =>
    intro db
    show ((insertEntries _ sid now rest).entries.filter _).map dropId = _
    rw [ih]
    simp [mkRow, dropId]

theorem filter_ne_filter_eq (l : List EntryRow) (sid : Int) :
    (l.filter (fun e => ¬e.source_id = sid)).filter (fun e => e.source_id = sid) = [] := by
  induction l with
  | nil => rfl
  | cons e t ih =>
    by_cases h : e.source_id = sid
    · simp [List.filter_cons, h, ih]
    · simp [List.filter_cons, h, ih]

theorem filter_ne_idem (l : List EntryRow) (sid : Int) :
    (l.filter (fun e => ¬e.source_id = sid)).filter (fun e => ¬e.source_id = sid)
      = l.filter (fun e => ¬e.source_id = sid) := by
  induction l with
  | nil => rfl
  | cons e t ih =>
    by_cases h : e.source_id = sid
    · simp [List.filter_cons, h, ih]
    · simp [List.filter_cons, h, ih]

/-- Claim C7: calling `replace_entries_for_source` twice on the same source
leaves, for that source, exactly the rows built from the second entry set
(no row from the first set survives), and leaves every other source's rows
untouched by both calls. -/
theorem replace_twice_exact (db : DB) (sid : Int) (E1 E2 : List NewEntry)
    (n1 n2 : String) :
    (((replace_entries_for_source (replace_entries_for_source db sid E1 n1) sid E2 n2).entries.filter
        (fun e => e.source_id = sid)).map dropId
      = E2.map (fun r => mkRow 0 sid n2 r)) ∧
    ((replace_entries_for_source (replace_entries_for_source db sid E1 n1) sid E2 n2).entries.filter
        (fun e => ¬e.source_id = sid)
      = db.entries.filter (fun e => ¬e.source_id = sid)) ∧
    ((replace_entries_for_source db sid E1 n1).entries.filter (fun e => ¬e.source_id = sid)
      = db.entries.filter (fun e => ¬e.source_id = sid)) := by
  have h1 : (replace_entries_for_source db sid E1 n1).entries.filter
      (fun e => ¬e.source_id = sid) = db.entries.filter (fun e => ¬e.source_id = sid) := by
    unfold replace_entries_for_source
    rw [insertEntries_filter_ne]
    exact filter_ne_idem _ _
  refine ⟨?_, ?_, h1⟩
  · unfold replace_entries_for_source
    rw [insertEntries_filter_eq]
    rw [insertEntries_filter_ne]
    rw [filter_ne_idem, filter_ne_filter_eq]
    simp
  · unfold replace_entries_for_source
    rw [insertEntries_filter_ne, insertEntries_filter_ne]
    rw [filter_ne_idem, filter_ne_idem]

/-- C8 counterexample: two sources share commentator "henry" and the same
chapter range; re-indexing source 1 with an empty set deletes the coverage
tuple even though source 2 still has an entry with that tuple, so coverage
is no longer the projection of the entries table. -/
theorem coverage_projection_counterexample :
    ¬covInv (runCalls init_schema
      [((1 : Int), "t1", [sharedEntry]), ((2 : Int), "t2", [sharedEntry]),
       ((1 : Int), "t3", [])]) := by
  intro hcov
  have h1 : (("henry", 45, 8, 8) : CovKey) ∈ (runCalls init_schema
      [((1 : Int), "t1", [sharedEntry]), ((2 : Int), "t2", [sharedEntry]),
       ((1 : Int), "t3", [])]).coverage :=
    (hcov ("henry", 45, 8, 8)).mpr ⟨mkRow 2 2 "t2" sharedEntry, by decide, by decide⟩
  exact absurd h1 (by decide)

theorem insertEntries_cov_mem {sid : Int} {now : String} :
    ∀ (rows : List NewEntry) (db : DB) (k : CovKey),
      (k ∈ (insertEntries db sid now rows).coverage ↔
        k ∈ db.coverage ∨ ∃ r ∈ rows, covOfNew r = k) := by
  intro rows
  induction rows with
  | nil => intro db k; simp [insertEntries]
  | cons r rest ih =>
    intro db k
    show k ∈ (insertEntries _ sid now rest).coverage ↔ _
    rw [ih]
    by_cases hc : covOfNew r ∈ db.coverage
    · simp only [if_pos hc]
      constructor
      · rintro (hk | ⟨r', hr', hkk⟩)
        · exact Or.inl hk
        · exact Or.inr ⟨r', by simp [hr'], hkk⟩
      · rintro (hk | ⟨r', hr', hk⟩)
        · exact Or.inl hk
        · rcases List.mem_cons.mp hr' with rfl | hr'
          · exact Or.inl (hk ▸ hc)
          · exact Or.inr ⟨r', hr', hk⟩
    · simp only [if_neg hc, List.mem_append, List.mem_singleton]
      constructor
      · rintro ((hk | rfl) | hk)
        · exact Or.inl hk
        · exact Or.inr ⟨r, by simp, rfl⟩
        · obtain ⟨r', hr', hk⟩ := hk
          exact Or.inr ⟨r', by simp [hr'], hk⟩
      · rintro (hk | ⟨r', hr', hk⟩)
        · exact Or.inl (Or.inl hk)
        · rcases List.mem_cons.mp hr' with rfl | hr'
          · exact Or.inl (Or.inr hk.symm)
          · exact Or.inr ⟨r', hr', hk⟩

theorem insertEntries_proj_mem {sid : Int} {now : String} :
    ∀ (rows : List NewEntry) (db : DB) (k : CovKey),
      ((∃ e ∈ (insertEntries db sid now rows).entries, covOf e = k) ↔
        (∃ e ∈ db.entries, covOf e = k) ∨ ∃ r ∈ rows, covOfNew r = k) := by
  intro rows
  induction rows with
  | nil => intro db k; simp [insertEntries]
  | cons r rest ih =>
    intro db k
    show (∃ e ∈ (insertEntries _ sid now rest).entries, covOf e = k) ↔ _
    rw [ih]
    constructor
    · rintro (⟨e, he, hk⟩ | hk)
      · rcases List.mem_append.mp he with he | he
        · exact Or.inl ⟨e, he, hk⟩
        · rcases List.mem_singleton.mp he with rfl
          exact Or.inr ⟨r, by simp, hk⟩
      · obtain ⟨r', hr', hk⟩ := hk
        exact Or.inr ⟨r', by simp [hr'], hk⟩
    · rintro (⟨e, he, hk⟩ | ⟨r', hr', hk⟩)
      · exact Or.inl ⟨e, List.mem_append.mpr (Or.inl he), hk⟩
      · rcases List.mem_cons.mp hr' with rfl | hr'
        · exact Or.inl ⟨mkRow (nextRowId (db.entries.map (fun e => e.id))) sid now r',
            List.mem_append.mpr (Or.inr (by simp)), hk⟩
        · exact Or.inr ⟨r', hr', hk⟩

theorem insertEntries_comm {sid : Int} {now : String} {commOf : Int → String} :
    ∀ (rows : List NewEntry) (db : DB),
      (∀ e ∈ db.entries, e.commentator_key = commOf e.source_id) →
      (∀ r ∈ rows, r.commentator_key = commOf sid) →
      ∀ e ∈ (insertEntries db sid now rows).entries,
        e.commentator_key = commOf e.source_id := by
  intro rows
  induction rows with
  | nil => intro db hdb _ e he; exact hdb e he
  | cons r rest ih =>
    intro db hdb hrows e he
    refine ih _ ?_ (fun r' hr' => hrows r' (by simp [hr'])) e he
    intro e' he'
    rcases List.mem_append.mp he' with he' | he'
    · exact hdb e' he'
    · rcases List.mem_singleton.mp he' with rfl
      exact hrows r (by simp)

/-- One `replace_entries_for_source` step preserves the projection invariant
when each source has a fixed commentator key and distinct sources have
distinct keys. -/
theorem replace_preserves_covInv {db : DB} {sid : Int} {rows : List NewEntry}
    {now : String} {commOf : Int → String}
    (hinj : ∀ s1 s2, commOf s1 = commOf s2 → s1 = s2)
    (hcov : covInv db)
    (hcomm : ∀ e ∈ db.entries, e.commentator_key = commOf e.source_id)
    (hrows : ∀ r ∈ rows, r.commentator_key = commOf sid) :
    covInv (replace_entries_for_source db sid rows now) ∧
      ∀ e ∈ (replace_entries_for_source db sid rows now).entries,
        e.commentator_key = commOf e.source_id := by
  constructor
  · intro k
    unfold replace_entries_for_source
    rw [insertEntries_cov_mem, insertEntries_proj_mem]
    simp only [List.mem_filter, decide_eq_true_eq]
    constructor
    · rintro (⟨hk, hnk⟩ | hk)
      · obtain ⟨e, he, hke⟩ := (hcov k).mp hk
        by_cases hs : e.source_id = sid
        · exfalso
          apply hnk
          refine List.mem_map.mpr ⟨e, List.mem_filter.mpr ⟨he, by simp [hs]⟩, hke⟩
        · exact Or.inl ⟨e, ⟨he, hs⟩, hke⟩
      · exact Or.inr hk
    · rintro (⟨e, ⟨he, hs⟩, hke⟩ | hk)
      · refine Or.inl ⟨(hcov k).mpr ⟨e, he, hke⟩, ?_⟩
        intro hnk
        obtain ⟨e', he', hke'⟩ := List.mem_map.mp hnk
        obtain ⟨he'm, hs'⟩ := List.mem_filter.mp he'
        simp only [decide_eq_true_eq] at hs'
        have hc1 : e.commentator_key = k.1 := by
          rw [← hke]
          rfl
        have hc2 : e'.commentator_key = k.1 := by
          rw [← hke']
          rfl
        have : commOf e.source_id = commOf e'.source_id := by
          rw [← hcomm e he, ← hcomm e' he'm, hc1, hc2]
        have := hinj _ _ this
        rw [hs'] at this
        exact hs this
      · exact Or.inr hk
  · unfold replace_entries_for_source
    refine insertEntries_comm _ _ ?_ hrows
    intro e he
    exact hcomm e (List.mem_filter.mp he).1

/-- Claim C8, amended: after `init_schema` and any sequence of
`replace_entries_for_source` calls in which every row carries its source's
commentator key and distinct sources have distinct commentator keys, the
coverage table is exactly the projection of the current entries table. -/
theorem coverage_projection_amended (calls : List (Int × String × List NewEntry))
    (commOf : Int → String)
    (hinj : ∀ s1 s2, commOf s1 = commOf s2 → s1 = s2)
    (hrows : ∀ c ∈ calls, ∀ r ∈ c.2.2, r.commentator_key = commOf c.1) :
    covInv (runCalls init_schema calls) := by
  suffices h : ∀ (calls : List (Int × String × List NewEntry)) (db : DB),
      covInv db →
      (∀ e ∈ db.entries, e.commentator_key = commOf e.source_id) →
      (∀ c ∈ calls, ∀ r ∈ c.2.2, r.commentator_key = commOf c.1) →
      covInv (runCalls db calls) by
    refine h calls init_schema ?_ ?_ hrows
    · intro k
      simp [init_schema]
    · intro e he
      simp [init_schema] at he
  intro calls
  induction calls with
  | nil => intro db h1 _ _; exact h1
  | cons c rest ih =>
    intro db h1 h2 h3
    obtain ⟨h1', h2'⟩ := replace_preserves_covInv hinj h1 h2
      (fun r hr => h3 c (by simp) r hr)
    exact ih _ h1' h2' (fun c' hc' => h3 c' (by simp [hc']))

theorem natDigits_inj {m n : Nat} (h : natDigits m = natDigits n) : m = n := by
  have h1 := natDigits_val m
  rw [h, natDigits_val n] at h1
  omega

theorem tagIntStr_inj : ∀ s1 s2 : Int, tagIntStr s1 = tagIntStr s2 → s1 = s2 := by
  intro s1 s2 h
  unfold tagIntStr at h
  have hd := congrArg String.data h
  split at hd <;> split at hd <;> simp only [List.cons.injEq] at hd
  · have := natDigits_inj hd.2
    omega
  · exact absurd hd.1 (by decide)
  · exact absurd hd.1 (by decide)
  · have := natDigits_inj hd.2
    omega

/-- C8 witness: the amended projection invariant at a concrete one-call run. -/
theorem coverage_projection_amended_witness :
    covInv (runCalls init_schema [((1 : Int), "t", [taggedEntry])]) :=
  coverage_projection_amended [((1 : Int), "t", [taggedEntry])] tagIntStr
    tagIntStr_inj (by decide)

theorem sortRel_rankedBefore {a b : Scored} (h : sortRel a b) : rankedBefore a b := by
  unfold sortRel at h
  unfold rankedBefore
  rcases h with h | ⟨h1, h2⟩
  · exact Or.inl (by linarith)
  · exact Or.inr ⟨by linarith, h2⟩

theorem dedupTake_length {limit : Int} :
    ∀ (l : List Scored) (seen : List (String × String × String)) (acc : List Scored),
      (acc.length : Int) < limit →
      ((dedupTake limit l seen acc).length : Int) ≤ limit := by
  intro l
  induction l with
  | nil => intro seen acc h; simp only [dedupTake]; omega
  | cons t rest ih =>
    intro seen acc h
    simp only [dedupTake]
    split
    · exact ih seen acc h
    · split
      next hge =>
        simp only [List.length_append, List.length_singleton] at hge ⊢
        omega
      next hge =>
        refine ih _ _ ?_
        simp only [List.length_append, List.length_singleton] at hge ⊢
        omega

theorem dedupTake_pairwise {limit : Int} {R : Scored → Scored → Prop} :
    ∀ (l : List Scored) (seen : List (String × String × String)) (acc : List Scored),
      (acc ++ l).Pairwise R → (dedupTake limit l seen acc).Pairwise R := by
  intro l
  induction l with
  | nil => intro seen acc h; simpa [dedupTake] using h
  | cons t rest ih =>
    intro seen acc h
    simp only [dedupTake]
    split
    · refine ih seen acc (h.sublist ?_)
      exact List.Sublist.append_left (List.sublist_cons_self t rest) acc
    · split
      · refine h.sublist ?_
        refine List.Sublist.append_left ?_ acc
        simp
      · refine ih _ (acc ++ [t]) ?_
        rw [List.append_assoc]
        simpa using h

/-- Claim C10, amended to positive limits: `search_entries` returns at most
`limit` results; the underlying deduplicated candidate list is ordered by
strictly descending score with ties by ascending
`(sort_chapter, sort_verse, id)`; and the returned items (which are the image
of that list) carry non-increasing scores. -/
theorem search_limit_and_order (db : DB) (p : Passage) (prio : String → Option Int)
    (limit : Int) (hl : 1 ≤ limit) :
    ((search_entries db p prio limit).length : Int) ≤ limit ∧
    (search_core db p prio limit).Pairwise rankedBefore ∧
    search_entries db p prio limit = (search_core db p prio limit).map mkItem ∧
    (search_entries db p prio limit).Pairwise (fun a b => b.score ≤ a.score) := by
  have hcore : (search_core db p prio limit).Pairwise rankedBefore := by
    unfold search_core
    refine (dedupTake_pairwise _ [] [] ?_).imp (fun h => sortRel_rankedBefore h)
    simp only [List.nil_append]
    exact List.sorted_insertionSort sortRel _
  have hlen : ((search_core db p prio limit).length : Int) ≤ limit := by
    unfold search_core
    refine dedupTake_length _ [] [] ?_
    simp only [List.length_nil]
    omega
  refine ⟨?_, hcore, rfl, ?_⟩
  · unfold search_entries
    simpa using hlen
  · unfold search_entries
    refine hcore.map mkItem ?_
    intro a b h
    unfold rankedBefore at h
    show (mkItem b).score ≤ (mkItem a).score
    unfold mkItem
    rcases h with h | ⟨h, _⟩
    · exact le_of_lt h
    · exact le_of_eq h.symm

/-- C10 witness: the amended bound and ordering at the concrete scenario
store with limit 5. -/
theorem search_limit_and_order_witness :
    ((search_entries scenarioDB romansQuery prioHenry 5).length : Int) ≤ 5 ∧
    (search_core scenarioDB romansQuery prioHenry 5).Pairwise rankedBefore ∧
    search_entries scenarioDB romansQuery prioHenry 5
      = (search_core scenarioDB romansQuery prioHenry 5).map mkItem ∧
    (search_entries scenarioDB romansQuery prioHenry 5).Pairwise
      (fun a b => b.score ≤ a.score) :=
  search_limit_and_order scenarioDB romansQuery prioHenry 5 (by decide)

/-- C10 counterexample: with `limit = 0` (a non-negative limit) the loop
appends a row before checking the bound, so one result is returned — more
than the limit. -/
theorem search_limit_counterexample :
    (search_entries scenarioDB romansQuery prioHenry 0).length = 1 ∧
    ¬((search_entries scenarioDB romansQuery prioHenry 0).length : Int) ≤ 0 := by
  with_unfolding_all decide
